import Mathlib

/-!
Verification development for the GIS chain engine (`src/blockchain/chain.rs`,
`src/miner.rs`, `src/commons/constants.rs`).

The chain engine is shallowly embedded: SQLite tables become Lean lists of
rows, `RefCell` caches become fields of the `Chain` state, and the external
cryptographic / parsing collaborators (hashing, signatures, JSON, DNS
predicates), which the repository treats as given interfaces, are collected in
an `Env` record of function parameters.  Loops with no structural measure
(the signer-election loop) take a fuel argument; `none` models divergence or
a runtime abort.
-/

/-! ### Constants (from `src/commons/constants.rs`) -/

def DB_VERSION : Nat := 0
def CHAIN_VERSION : Nat := 0
def ZONE_DIFFICULTY : Nat := 28
def ZONE_MIN_DIFFICULTY : Nat := 22
def SIGNER_DIFFICULTY : Nat := 16
def KEYSTORE_DIFFICULTY : Nat := 23
def BLOCK_SIGNERS_START : Nat := 0
def BLOCK_SIGNERS_ALL : Nat := 7
def BLOCK_SIGNERS_MIN : Nat := 2
def BLOCK_SIGNERS_START_RANDOM : Int := 180
def NEW_DOMAINS_INTERVAL : Int := 86400
def DOMAIN_LIFETIME : Int := 86400 * 365
def CLASS_ZONE : String := "zone"
def CLASS_DOMAIN : String := "domain"

/-- `const MAX: u64 = i64::MAX as u64` (chain.rs line 46). -/
def MAXB : Nat := 9223372036854775807

/-- `u32::MAX`, the unattainable difficulty used for rejections. -/
def u32Max : Nat := 4294967295

/-- 2^64, the modulus of `u64` arithmetic (`wrapping_mul`). -/
def U64MOD : Nat := 18446744073709551616

/-! ### Data model -/

/-- Raw byte strings (`Bytes` in the Rust code). -/
abbrev Bytes := List Nat

/-- A transaction payload.  `class` is a Rust field name that is a Lean
keyword, so it is rendered `tclass` here. -/
structure Transaction where
  identity : Bytes
  confirmation : Bytes
  tclass : String
  data : String
  pub_key : Bytes
deriving DecidableEq, Repr

/-- A block, as stored in memory and (field for field) in the `blocks`
table.  `transaction = none` is a signing block, `some` a payload block. -/
structure Block where
  index : Nat
  timestamp : Int
  version : Nat
  difficulty : Nat
  random : Nat
  nonce : Nat
  prev_block_hash : Bytes
  hash : Bytes
  pub_key : Bytes
  signature : Bytes
  transaction : Option Transaction
deriving DecidableEq, Repr

/-- A row of the `domains` or `zones` projection tables. -/
structure DbRow where
  id : Nat
  timestamp : Int
  identity : Bytes
  confirmation : Bytes
  data : String
  pub_key : Bytes
deriving DecidableEq, Repr

/-- Parsed JSON of a zone payload (`ZoneData`). -/
structure ZoneData where
  name : String
  difficulty : Nat
  yggdrasil : Bool
deriving DecidableEq, Repr

/-- Parsed JSON of a domain payload (`DomainData`); records are abstract
strings here. -/
structure DomainData where
  zone : String
  records : List String
deriving DecidableEq, Repr

/-- The signer memoization cache (`SignersCache`, chain.rs lines 965-984). -/
structure SignersCache where
  index : Nat
  signers : List Bytes
deriving DecidableEq, Repr

/-- `SignersCache::has_signers_for`. -/
def SignersCache.has_signers_for (s : SignersCache) (index : Nat) : Bool :=
  s.index == index && !s.signers.isEmpty

/-- `SignersCache::clear` (index reset to 0, vector emptied). -/
def SignersCache.clear (_ : SignersCache) : SignersCache :=
  { index := 0, signers := [] }

/-- Modelled from the spec: the `Keystore` interface (`keys.rs` is not under
`src/`); only `get_public()` is needed by the embedded engine code. -/
structure Keystore where
  public : Bytes
deriving DecidableEq, Repr

def Keystore.get_public (k : Keystore) : Bytes := k.public

/-- The chain-engine state (`struct Chain`): the three SQLite tables as row
lists in insertion order, the advisory tip caches, the zones-seen cache and
the signer cache. -/
structure Chain where
  origin : Bytes
  last_block : Option Block
  last_full_block : Option Block
  max_height : Nat
  db_blocks : List Block
  db_domains : List DbRow
  db_zones : List DbRow
  zones : List String
  signers : SignersCache
deriving DecidableEq, Repr

/-- The external collaborators the engine consumes (hash/key utilities,
signature checks, JSON parsing, DNS predicates and the wall clock).  The
repository declares these interfaces but their code is outside `src/`, so
they are abstract function parameters of the embedding. -/
structure Env where
  now : Int
  hash_identity : String → Bytes
  hash_difficulty : Bytes → Nat
  check_block_hash : Block → Bool
  check_block_signature : Block → Bool
  check_public_key_strength : Bytes → Nat → Bool
  check_domain : String → Bool → Bool
  get_domain_zone : String → String
  is_yggdrasil_record : String → Bool
  parse_zone_data : String → Option ZoneData
  parse_domain_data : String → Option DomainData
  check_identity : Transaction → String → Bool

/-- Validation outcomes (`BlockQuality`). -/
inductive BlockQuality where
  | Good
  | Bad
  | Future
  | Rewind
  | Twin
  | Fork
deriving DecidableEq, Repr

/-- Results of `can_mine_domain` (`MineResult`). -/
inductive MineResult where
  | Fine
  | WrongName
  | WrongZone
  | NotOwned
  | Cooldown (time : Int)
deriving DecidableEq, Repr

/-! ### Modelled helpers for code outside `src/` -/

/-- Modelled from the spec: `Block::is_genesis` (block.rs is not under
`src/`); the data model says "`index` ≥ 1 (genesis is 1)". -/
def Block.is_genesis (b : Block) : Bool := b.index == 1

/-- Modelled from the spec: `Bytes::is_zero` (types.rs is not under `src/`);
an unset origin ("empty ⇒ node may mine genesis") is all-zero/empty bytes. -/
def bytes_is_zero (b : Bytes) : Bool := b.all (fun x => x == 0)

/-- Modelled from the spec: `Bytes::get_tail_u64` (types.rs is not under
`src/`); "Seed = tail 64 bits of `F.signature`". -/
def get_tail_u64 (b : Bytes) : Nat :=
  (((b.reverse.take 8).reverse).foldl (fun acc x => acc * 256 + x % 256) 0) % U64MOD

/-- Modelled from the spec: `Transaction::get_domain_data` (transaction.rs is
not under `src/`); for `domain` payloads the `data` field decodes to
`DomainData`. -/
def Transaction.get_domain_data (env : Env) (t : Transaction) : Option DomainData :=
  if t.tclass == CLASS_DOMAIN then env.parse_domain_data t.data else none

/-! ### Table queries (the prepared SQL statements of chain.rs) -/

/-- `SELECT * FROM blocks WHERE id=? LIMIT 1` (`SQL_GET_BLOCK_BY_ID`). -/
def dbGetBlock (blocks : List Block) (index : Nat) : Option Block :=
  blocks.find? (fun b => b.index == index)

/-- `SELECT * FROM blocks ORDER BY id DESC LIMIT 1` (`SQL_GET_LAST_BLOCK`):
the row with the largest id. -/
def maxIdBlock : List Block → Option Block
  | [] => none
  | b :: rest =>
    match maxIdBlock rest with
    | none => some b
    | some a => if a.index ≤ b.index then some b else some a

/-- `SELECT * FROM blocks WHERE id < ? AND transaction<>'' [AND pub_key = ?]
ORDER BY id DESC LIMIT 1` (`SQL_GET_LAST_FULL_BLOCK[_FOR_KEY]`). -/
def dbLastFullBlock (blocks : List Block) (before : Nat) (key : Option Bytes) : Option Block :=
  maxIdBlock (blocks.filter
    (fun b => b.index < before && b.transaction.isSome &&
      (match key with
       | none => true
       | some k => b.pub_key == k)))

/-- `SELECT pub_key FROM domains/zones WHERE id < ? AND identity = ? LIMIT 1`. -/
def dbIdKeyRow (rows : List DbRow) (height : Nat) (identity : Bytes) : Option DbRow :=
  rows.find? (fun r => r.id < height && r.identity == identity)

/-- `SELECT * FROM domains WHERE identity = ? ORDER BY id DESC LIMIT 1`
(`SQL_GET_DOMAIN_BY_ID`). -/
def dbMaxDomainRow (rows : List DbRow) (identity : Bytes) : Option DbRow :=
  (rows.filter (fun r => r.identity == identity)).foldl
    (fun acc r =>
      match acc with
      | none => some r
      | some a => if a.id < r.id then some r else some a)
    none

/-! ### Chain queries -/

/-- `Chain::get_block`. -/
def Chain.get_block (c : Chain) (index : Nat) : Option Block :=
  dbGetBlock c.db_blocks index

/-- `Chain::load_last_block` (the query path; schema creation is omitted). -/
def Chain.load_last_block (c : Chain) : Option Block :=
  maxIdBlock c.db_blocks

/-- `Chain::get_height`. -/
def Chain.get_height (c : Chain) : Nat :=
  match c.last_block with
  | none => 0
  | some block => block.index

/-- `Chain::get_last_hash`. -/
def Chain.get_last_hash (c : Chain) : Bytes :=
  match c.last_block with
  | none => []
  | some block => block.hash

/-- `Chain::get_last_full_block` (chain.rs lines 407-447): consult the
`last_full_block` cache first, fall through to the DB query. -/
def Chain.get_last_full_block (c : Chain) (before : Nat) (key : Option Bytes) : Option Block :=
  match c.last_full_block with
  | some block =>
    if block.index < before then
      match key with
      | none => some block
      | some k =>
        if block.pub_key == k then some block
        else dbLastFullBlock c.db_blocks before key
    else dbLastFullBlock c.db_blocks before key
  | none => dbLastFullBlock c.db_blocks before key

/-- `Chain::is_id_available` (chain.rs lines 471-487): the prepared query has
`LIMIT 1`, so only the first matching row's key is compared. -/
def Chain.is_id_available (c : Chain) (height : Nat) (identity : Bytes)
    (public_key : Bytes) (zone : Bool) : Bool :=
  let rows := if zone then c.db_zones else c.db_domains
  match dbIdKeyRow rows height identity with
  | some r => r.pub_key == public_key
  | none => true

/-- `Chain::is_id_in_blockchain` (chain.rs lines 526-540). -/
def Chain.is_id_in_blockchain (c : Chain) (height : Nat) (id : Bytes) (zone : Bool) : Bool :=
  let rows := if zone then c.db_zones else c.db_domains
  (dbIdKeyRow rows height id).isSome

/-- `Chain::is_zone_in_blockchain` (chain.rs lines 510-523): the zones-seen
cache is consulted first; a DB hit inserts into the cache (the insertion
only grows the cache and is not needed for the result, which is what the
claims are about). -/
def Chain.is_zone_in_blockchain (env : Env) (c : Chain) (height : Nat) (zone : String) : Bool :=
  if c.zones.contains zone then true
  else c.is_id_in_blockchain height (env.hash_identity zone) true

/-- Rust `str::to_lowercase`, modelled character-wise. -/
def strToLower (s : String) : String := ⟨s.data.map Char.toLower⟩

/-- Splitting a string at every `'.'` (Rust `split('.')` semantics). -/
def splitDotAux : List Char → List Char → List String
  | [], acc => [⟨acc.reverse⟩]
  | c :: rest, acc =>
    if c = '.' then ⟨acc.reverse⟩ :: splitDotAux rest [] else splitDotAux rest (c :: acc)

def splitDot (s : String) : List String := splitDotAux s.data []

/-- Rust `str::contains(".")`. -/
def containsDot (s : String) : Bool := s.data.contains '.'

/-- Joining fragments with `'.'` (inverse of `splitDot`). -/
def joinDot : List String → String
  | [] => ""
  | [s] => s
  | s :: rest => s ++ "." ++ joinDot rest

/-- `domain.rsplitn(2, ".").collect::<Vec<&str>>()`: splitting from the right
at the last dot, at most two fragments; `["tail-label", "rest"]` for names
with a dot, `[domain]` otherwise. -/
def rsplitn2 (s : String) : List String :=
  let ps := splitDot s
  if ps.length ≤ 1 then [s]
  else [ps.getLastD "", joinDot ps.dropLast]

/-- `Chain::is_domain_available` (chain.rs lines 450-468). -/
def Chain.is_domain_available (env : Env) (c : Chain) (height : Nat)
    (domain : String) (keystore : Keystore) : Bool :=
  if domain = "" then false
  else
    let identity_hash := env.hash_identity domain
    if !(c.is_id_available height identity_hash keystore.get_public false) then false
    else
      let parts := rsplitn2 domain
      if parts.length > 1 then
        if containsDot (parts.getLastD "") then false
        else c.is_zone_in_blockchain env height (parts.headD "")
      else true

/-- One step of the `HashMap` building in `Chain::get_zones`: insertion keyed
by zone name, replacing an existing entry. -/
def upsertZone (acc : List ZoneData) (z : ZoneData) : List ZoneData :=
  if acc.any (fun a => a.name == z.name) then
    acc.map (fun a => if a.name == z.name then z else a)
  else acc ++ [z]

/-- `Chain::get_zones` (chain.rs lines 489-507): every parsable row of the
`zones` table, deduplicated by name with the last row winning (the `HashMap`
insert).  The `HashMap` iteration order is arbitrary; this model fixes one
order, and all engine uses look zones up by their (unique) name. -/
def Chain.get_zones (env : Env) (c : Chain) : List ZoneData :=
  c.db_zones.foldl
    (fun acc r =>
      match env.parse_zone_data r.data with
      | some z => upsertZone acc z
      | none => acc)
    []

/-- `Chain::get_zone_difficulty` (chain.rs lines 648-656). -/
def Chain.get_zone_difficulty (env : Env) (c : Chain) (zone : String) : Nat :=
  match (c.get_zones env).find? (fun z => z.name == zone) with
  | some z => z.difficulty
  | none => u32Max

/-- `Chain::get_domain_transaction` (chain.rs lines 569-595): newest row for
the identity; `none` when expired (`DOMAIN_LIFETIME`) or when the identity
check fails. -/
def Chain.get_domain_transaction (env : Env) (c : Chain) (domain : String) : Option Transaction :=
  if domain = "" then none
  else
    let identity_hash := env.hash_identity domain
    match dbMaxDomainRow c.db_domains identity_hash with
    | none => none
    | some row =>
      if row.timestamp < env.now - DOMAIN_LIFETIME then none
      else
        let transaction : Transaction :=
          { identity := row.identity, confirmation := row.confirmation,
            tclass := "domain", data := row.data, pub_key := row.pub_key }
        if env.check_identity transaction domain then some transaction else none

/-- `Chain::can_mine_domain` (chain.rs lines 542-566). -/
def Chain.can_mine_domain (env : Env) (c : Chain) (height : Nat)
    (domain : String) (pub_key : Bytes) : MineResult :=
  let name := strToLower domain
  if !(env.check_domain name true) then MineResult.WrongName
  else if !(c.is_zone_in_blockchain env height (env.get_domain_zone name)) then
    MineResult.WrongZone
  else if (match c.get_domain_transaction env name with
           | some transaction => transaction.pub_key != pub_key
           | none => false) then MineResult.NotOwned
  else
    let identity_hash := env.hash_identity name
    match c.get_last_full_block MAXB (some pub_key) with
    | none => MineResult.Fine
    | some last =>
      if !(c.is_id_in_blockchain height identity_hash false)
          && decide (last.timestamp + NEW_DOMAINS_INTERVAL - env.now > 0) then
        MineResult.Cooldown (last.timestamp + NEW_DOMAINS_INTERVAL - env.now)
      else MineResult.Fine

/-- `Chain::next_allowed_full_block` (chain.rs lines 678-689). -/
def Chain.next_allowed_full_block (c : Chain) : Nat :=
  match c.last_full_block with
  | none => c.get_height + 1
  | some block =>
    if block.index < BLOCK_SIGNERS_START then c.get_height + 1
    else max (block.index + BLOCK_SIGNERS_MIN) (c.get_height + 1)

/-! ### Signer election -/

/-- The `while set.len() < BLOCK_SIGNERS_ALL` loop of
`Chain::get_block_signers` (chain.rs lines 928-941), with fuel.  The Rust
`HashSet` holds exactly the elements of `result`, so the set membership test
is `result.contains`.  `tail.wrapping_mul(count)` is `u64` arithmetic. -/
def signersElect (blocks : List Block) (fkey : Bytes) (tail window : Nat) :
    List Bytes → Nat → Nat → Option (List Bytes)
  | result, _, 0 =>
    if BLOCK_SIGNERS_ALL ≤ result.length then some result else none
  | result, count, fuel + 1 =>
    if BLOCK_SIGNERS_ALL ≤ result.length then some result
    else
      let index := (tail * count) % U64MOD % window + 1
      let result' :=
        match dbGetBlock blocks index with
        | some b =>
          if b.pub_key ≠ fkey ∧ ¬ result.contains b.pub_key then result ++ [b.pub_key]
          else result
        | none => result
      signersElect blocks fkey tail window result' (count + 1) fuel

/-- `Chain::get_block_signers` (chain.rs lines 917-947).  The returned cache
is the state of the `signers` `RefCell` after the call; `none` models the
`assert!` failure (no payload), the `% 0` abort when `block.index = 1`, and
loop divergence (fuel exhaustion). -/
def Chain.get_block_signers (_env : Env) (c : Chain) (block : Block) (fuel : Nat) :
    Option (List Bytes × SignersCache) :=
  if block.index < BLOCK_SIGNERS_START ∨ c.get_height < block.index then
    some ([], c.signers)
  else if block.transaction.isNone then none
  else if c.signers.has_signers_for block.index then some (c.signers.signers, c.signers)
  else
    let tail := get_tail_u64 block.signature
    let window := block.index - 1
    if window = 0 then none
    else
      match signersElect c.db_blocks block.pub_key tail window [] 1 fuel with
      | none => none
      | some result => some (result, { index := block.index, signers := result })

/-- The `for i in (full_block.index + 1)..block.index` loop of
`Chain::is_good_signer_for_block`: `none` models the `.expect` abort on a
missing row, `some false` a repeated signer key. -/
def noPriorSigner (c : Chain) (key : Bytes) : List Nat → Option Bool
  | [] => some true
  | i :: rest =>
    match c.get_block i with
    | none => none
    | some signer =>
      if signer.pub_key == key then some false else noPriorSigner c key rest

/-- `Chain::is_good_signer_for_block` (chain.rs lines 874-890). -/
def Chain.is_good_signer_for_block (env : Env) (c : Chain) (block full_block : Block)
    (fuel : Nat) : Option (Bool × SignersCache) :=
  match c.get_block_signers env full_block fuel with
  | none => none
  | some (signers, s) =>
    if !(signers.contains block.pub_key) then some (false, s)
    else
      match noPriorSigner c block.pub_key
          (List.range' (full_block.index + 1) (block.index - (full_block.index + 1))) with
      | none => none
      | some ok => some (ok, s)

/-- `Chain::is_good_sign_block` (chain.rs lines 847-871).  Note the early
`return true` for payload blocks: the inner payload rejection branch is
unreachable.  `sign_count` is a `u64` subtraction (underflow aborts). -/
def Chain.is_good_sign_block (env : Env) (c : Chain) (block : Block)
    (last_full_block : Option Block) (fuel : Nat) : Option (Bool × SignersCache) :=
  if block.transaction.isSome then some (true, c.signers)
  else
    match last_full_block with
    | none => some (true, c.signers)
    | some full_block =>
      let sign_count := c.get_height - full_block.index
      if sign_count < BLOCK_SIGNERS_MIN then
        if block.index > full_block.index ∧ block.transaction.isSome then
          some (false, c.signers)
        else c.is_good_signer_for_block env block full_block fuel
      else if sign_count < BLOCK_SIGNERS_ALL ∧ block.transaction.isNone then
        c.is_good_signer_for_block env block full_block fuel
      else some (true, c.signers)

/-! ### Block validation -/

/-- `Chain::get_difficulty_for_transaction` (chain.rs lines 892-913). -/
def Chain.get_difficulty_for_transaction (env : Env) (c : Chain) (transaction : Transaction) : Nat :=
  if transaction.tclass == "domain" then
    match env.parse_domain_data transaction.data with
    | some data =>
      match (c.get_zones env).find? (fun z => z.name == data.zone) with
      | some zone => zone.difficulty
      | none => u32Max
    | none => u32Max
  else if transaction.tclass == "zone" then ZONE_DIFFICULTY
  else u32Max

/-- The difficulty requirement computed by `Chain::check_block`
(chain.rs lines 724-733). -/
def required_difficulty (env : Env) (c : Chain) (block : Block) : Nat :=
  match block.transaction with
  | none => if block.index == 1 then ZONE_DIFFICULTY else SIGNER_DIFFICULTY
  | some t => c.get_difficulty_for_transaction env t

/-- The transaction section of `Chain::check_block` (chain.rs lines
757-794); `true` means the block is rejected (`Bad`). -/
def transaction_gate_bad (env : Env) (c : Chain) (block : Block)
    (last_block : Option Block) : Bool :=
  match block.transaction with
  | none => false
  | some transaction =>
    let current_height :=
      match last_block with
      | none => 0
      | some b => b.index
    let is_domain_avail := c.is_id_available current_height transaction.identity block.pub_key false
    let is_zone_avail := c.is_id_available current_height transaction.identity block.pub_key true
    if !is_domain_avail || !is_zone_avail then true
    else if (match c.get_last_full_block block.index (some block.pub_key) with
             | some last =>
               if last.index < block.index then
                 !(c.is_id_in_blockchain block.index transaction.identity false)
                   && decide (last.timestamp + NEW_DOMAINS_INTERVAL > block.timestamp)
               else false
             | none => false) then true
    else
      match transaction.get_domain_data env with
      | some block_data =>
        !((c.get_zones env).all (fun z =>
          if z.name == block_data.zone then
            if z.yggdrasil then block_data.records.all (fun r => env.is_yggdrasil_record r)
            else true
          else true))
      | none => false

/-- The `match last_block` section closing `Chain::check_block` (chain.rs
lines 795-843): the genesis/origin checks when there is no tip, and the
collision, future, signer, twin/fork and previous-hash checks against an
existing tip. -/
def check_block_finish (env : Env) (c : Chain) (block : Block) (fuel : Nat) :
    Option Block → Option Block → Option (BlockQuality × SignersCache)
  | none, _ =>
    if !block.is_genesis then some (BlockQuality.Future, c.signers)
    else if ¬ bytes_is_zero c.origin ∧ block.hash ≠ c.origin then
      some (BlockQuality.Bad, c.signers)
    else some (BlockQuality.Good, c.signers)
  | some last, last_full_block =>
    if block.timestamp < last.timestamp ∧ block.index > last.index then
      some (BlockQuality.Bad, c.signers)
    else if last.index + 1 < block.index then some (BlockQuality.Future, c.signers)
    else
      match (if block.index > BLOCK_SIGNERS_START
             then c.is_good_sign_block env block last_full_block fuel
             else some (true, c.signers)) with
      | none => none
      | some (ok, s) =>
        if !ok then some (BlockQuality.Bad, s)
        else if block.index ≤ last.index then
          if block.index == last.index && last.hash == block.hash then
            some (BlockQuality.Twin, s)
          else
            match c.get_block block.index with
            | some my_block =>
              if my_block.hash ≠ block.hash then some (BlockQuality.Fork, s)
              else some (BlockQuality.Twin, s)
            | none => some (BlockQuality.Good, s)
        else if block.prev_block_hash ≠ last.hash then some (BlockQuality.Bad, s)
        else some (BlockQuality.Good, s)

/-- `Chain::check_block` (chain.rs lines 704-844).  The second component is
the signer cache after the call (the call may memoize signers); `none`
models an abort/divergence inside signer election. -/
def Chain.check_block (env : Env) (c : Chain) (block : Block)
    (last_block last_full_block : Option Block) (fuel : Nat) :
    Option (BlockQuality × SignersCache) :=
  if block.version > CHAIN_VERSION then some (BlockQuality.Bad, c.signers)
  else if block.timestamp > env.now + 60 then some (BlockQuality.Bad, c.signers)
  else if (match last_block with
           | some last => decide (block.index > last.index + 1)
           | none => false) then some (BlockQuality.Future, c.signers)
  else if !(env.check_public_key_strength block.pub_key KEYSTORE_DIFFICULTY) then
    some (BlockQuality.Bad, c.signers)
  else if block.difficulty < required_difficulty env c block then
    some (BlockQuality.Bad, c.signers)
  else if env.hash_difficulty block.hash < block.difficulty then
    some (BlockQuality.Bad, c.signers)
  else if !(env.check_block_hash block) then some (BlockQuality.Bad, c.signers)
  else if !(env.check_block_signature block) then some (BlockQuality.Bad, c.signers)
  else if (match c.get_block (block.index - 1) with
           | some prev_block => block.prev_block_hash != prev_block.hash
           | none => false) then some (BlockQuality.Rewind, c.signers)
  else if transaction_gate_bad env c block last_block then some (BlockQuality.Bad, c.signers)
  else check_block_finish env c block fuel last_block last_full_block

/-- `Chain::check_new_block`. -/
def Chain.check_new_block (env : Env) (c : Chain) (block : Block) (fuel : Nat) :
    Option (BlockQuality × SignersCache) :=
  c.check_block env block c.last_block c.last_full_block fuel

/-! ### Mutation -/

/-- `Chain::add_block` (chain.rs lines 235-249 together with
`add_block_to_table` and `add_transaction_to_table`): update the tip caches,
append the block row and, for payload blocks, the projection row.  `none`
models the `.expect` abort when the transaction class is neither `domain`
nor `zone`. -/
def Chain.add_block (c : Chain) (block : Block) : Option Chain :=
  let c1 : Chain :=
    { c with
      last_block := some block,
      last_full_block := if block.transaction.isSome then some block else c.last_full_block }
  match block.transaction with
  | none => some { c1 with db_blocks := c1.db_blocks ++ [block] }
  | some t =>
    let row : DbRow :=
      { id := block.index, timestamp := block.timestamp, identity := t.identity,
        confirmation := t.confirmation, data := t.data, pub_key := t.pub_key }
    if t.tclass == CLASS_DOMAIN then
      some { c1 with db_blocks := c1.db_blocks ++ [block],
                     db_domains := c1.db_domains ++ [row] }
    else if t.tclass == CLASS_ZONE then
      some { c1 with db_blocks := c1.db_blocks ++ [block],
                     db_zones := c1.db_zones ++ [row] }
    else none

/-- `Chain::truncate_db_from_block` (chain.rs lines 159-171): `DELETE ...
WHERE id >= ?` on all three tables. -/
def Chain.truncate_db_from_block (c : Chain) (index : Nat) : Chain :=
  { c with
    db_blocks := c.db_blocks.filter (fun b => b.index < index),
    db_domains := c.db_domains.filter (fun r => r.id < index),
    db_zones := c.db_zones.filter (fun r => r.id < index) }

/-- `Chain::replace_block` (chain.rs lines 251-257): clear the signer cache,
truncate, re-append. -/
def Chain.replace_block (c : Chain) (block : Block) : Option Chain :=
  let c1 : Chain := { c with signers := c.signers.clear }
  (c1.truncate_db_from_block block.index).add_block block

/-- The `for id in start..=height` loop of `Chain::check_chain`
(chain.rs lines 113-153), threading the chain state (the walk mutates
`last_full_block` and, via `check_block`, the signer cache) and the local
`last_block`/`last_full_block` context.  `none` models the corruption and
origin-mismatch aborts; the loop stops and truncates at the first
non-`Good` block. -/
def checkChainLoop (env : Env) (fuel : Nat) :
    Chain → List Nat → Option Block → Option Block → Option Chain
  | c, [], _, _ => some c
  | c, id :: rest, last_block, last_full_block =>
    match c.get_block id with
    | none => none
    | some block =>
      if block.index = 1 then
        if block.hash ≠ c.origin then none
        else checkChainLoop env fuel c rest (some block) last_full_block
      else
        match c.check_block env block last_block last_full_block fuel with
        | none => none
        | some (q, s) =>
          let c' : Chain := { c with signers := s }
          if q ≠ BlockQuality.Good then some (c'.truncate_db_from_block block.index)
          else
            let c'' : Chain :=
              if block.transaction.isSome then { c' with last_full_block := some block } else c'
            checkChainLoop env fuel c'' rest (some block)
              (if block.transaction.isSome then some block else last_full_block)

/-- The initial walk context of `Chain::check_chain` (chain.rs lines
101-111). -/
def checkChainInit (c : Chain) (start : Nat) : Option Block × Option Block :=
  if start > 1 then
    match c.get_block (start - 1) with
    | none => (none, none)
    | some last =>
      match last.transaction with
      | none => (some last, c.get_last_full_block last.index none)
      | some _ => (some last, some last)
  else (none, none)

/-- `Chain::check_chain` (chain.rs lines 92-157): walk, then re-derive the
tip caches (`load_last_block`, then `get_last_full_block(MAX, None)` which
consults the — possibly walk-mutated — `last_full_block` cache first). -/
def Chain.check_chain (env : Env) (c : Chain) (count : Nat) (fuel : Nat) : Option Chain :=
  let height := c.get_height
  let start := if height > count then height - count + 1 else 1
  let ctx := checkChainInit c start
  match checkChainLoop env fuel c (List.range' start (height + 1 - start)) ctx.1 ctx.2 with
  | none => none
  | some c' =>
    let lb := c'.load_last_block
    let c'' : Chain := { c' with last_block := lb }
    some { c'' with last_full_block := c''.get_last_full_block MAXB none }

/-- The index of the first block the `check_chain` walk judges non-`Good`
(the block at which chain.rs line 134 truncates); `none` when the walk
aborts or finds no bad block.  Mirrors `checkChainLoop` step for step. -/
def firstBadLoop (env : Env) (fuel : Nat) :
    Chain → List Nat → Option Block → Option Block → Option Nat
  | _, [], _, _ => none
  | c, id :: rest, last_block, last_full_block =>
    match c.get_block id with
    | none => none
    | some block =>
      if block.index = 1 then
        if block.hash ≠ c.origin then none
        else firstBadLoop env fuel c rest (some block) last_full_block
      else
        match c.check_block env block last_block last_full_block fuel with
        | none => none
        | some (q, s) =>
          let c' : Chain := { c with signers := s }
          if q ≠ BlockQuality.Good then some block.index
          else
            let c'' : Chain :=
              if block.transaction.isSome then { c' with last_full_block := some block } else c'
            firstBadLoop env fuel c'' rest (some block)
              (if block.transaction.isSome then some block else last_full_block)

/-- The first non-`Good` index found by `check_chain` run with `count`. -/
def Chain.first_bad (env : Env) (c : Chain) (count : Nat) (fuel : Nat) : Option Nat :=
  let height := c.get_height
  let start := if height > count then height - count + 1 else 1
  let ctx := checkChainInit c start
  firstBadLoop env fuel c (List.range' start (height + 1 - start)) ctx.1 ctx.2

/-! ### Miner job queue (`src/miner.rs`) -/

/-- A mining job (`MineJob`); the keystore does not affect the queue
discipline and is omitted. -/
structure MineJob where
  start : Int
  block : Block
deriving DecidableEq, Repr

def MineJob.is_full (j : MineJob) : Bool := j.block.transaction.isSome

def MineJob.is_signing (j : MineJob) : Bool := j.block.transaction.isNone

def MineJob.is_due (now : Int) (j : MineJob) : Bool :=
  j.start == 0 || decide (j.start < now)

/-- `Miner::add_block` (miner.rs lines 66-75): a signing block first evicts
every queued signing job; either way the new job is pushed at the back. -/
def miner_add_block (jobs : List MineJob) (block : Block) : List MineJob :=
  (if block.transaction.isNone then jobs.filter (fun job => job.block.transaction.isSome)
   else jobs) ++ [{ start := 0, block := block }]

/-- The queue effect of one pass of `Miner::run_main_loop` while a payload
job is being mined (miner.rs lines 123-162): pop the head; a due signing
head preempts (the current job is re-inserted in front and the head becomes
current); otherwise the head is re-inserted and, unless the head was a
waiting signing job, an engine-provided signing block may be pushed. -/
def scheduler_full_step (now delay : Int) (engine_sign : Option Block)
    (cur : MineJob) (jobs : List MineJob) : List MineJob :=
  match jobs with
  | job :: rest =>
    if job.is_signing && job.is_due now then cur :: rest
    else if job.is_signing then job :: rest
    else
      match engine_sign with
      | some b => (job :: rest) ++ [{ start := now + delay, block := b }]
      | none => job :: rest
  | [] =>
    match engine_sign with
    | some b => [{ start := now + delay, block := b }]
    | none => []

/-- The queue effect of one idle pass of `Miner::run_main_loop` (miner.rs
lines 164-188): a due head is taken, a not-yet-due head is re-inserted, and
on an empty queue an engine-provided signing block may be pushed. -/
def scheduler_idle_step (now delay : Int) (engine_sign : Option Block)
    (jobs : List MineJob) : List MineJob :=
  match jobs with
  | job :: rest => if job.is_due now then rest else job :: rest
  | [] =>
    match engine_sign with
    | some b => [{ start := now + delay, block := b }]
    | none => []

/-- Queue states reachable through the queue-mutating code paths of
`src/miner.rs`.  `get_sign_block` only ever returns transaction-less blocks
(`Block::new(None, ...)`), which the scheduler constructors record; the
full-branch runs only while a payload job is current. -/
inductive MinerQueueReach : List MineJob → Prop
  | init : MinerQueueReach []
  | add (jobs : List MineJob) (block : Block) :
      MinerQueueReach jobs → MinerQueueReach (miner_add_block jobs block)
  | full (jobs : List MineJob) (now delay : Int) (engine_sign : Option Block) (cur : MineJob) :
      MinerQueueReach jobs → cur.is_full = true →
      (∀ b, engine_sign = some b → b.transaction = none) →
      MinerQueueReach (scheduler_full_step now delay engine_sign cur jobs)
  | idle (jobs : List MineJob) (now delay : Int) (engine_sign : Option Block) :
      MinerQueueReach jobs →
      (∀ b, engine_sign = some b → b.transaction = none) →
      MinerQueueReach (scheduler_idle_step now delay engine_sign jobs)

/-- Number of signing jobs in the queue. -/
def countSigning (jobs : List MineJob) : Nat :=
  (jobs.filter (fun j => j.is_signing)).length

/-! ### Concrete test environment and chains for witnesses and counterexamples -/

/-- A concrete instantiation of the external collaborators: hashing is the
character-code list, PoW/signature/strength checks accept, zone lookup takes
the trailing label. -/
def envT : Env :=
  { now := 40000000,
    hash_identity := fun s => s.data.map Char.toNat,
    hash_difficulty := fun _ => 1000,
    check_block_hash := fun _ => true,
    check_block_signature := fun _ => true,
    check_public_key_strength := fun _ _ => true,
    check_domain := fun _ _ => true,
    get_domain_zone := fun s => (rsplitn2 s).headD "",
    is_yggdrasil_record := fun _ => true,
    parse_zone_data := fun _ => none,
    parse_domain_data := fun _ => none,
    check_identity := fun _ _ => true }

/-- Block builder: version 0, nonce/random 0, signature `[1]`. -/
def mkB (index : Nat) (ts : Int) (diff : Nat) (prev h pk : Bytes)
    (tx : Option Transaction) : Block :=
  { index := index, timestamp := ts, version := 0, difficulty := diff, random := 0,
    nonce := 0, prev_block_hash := prev, hash := h, pub_key := pk, signature := [1],
    transaction := tx }

/-- Zone-class transaction builder. -/
def mkZTx (ident : Bytes) (pk : Bytes) : Transaction :=
  { identity := ident, confirmation := [], tclass := "zone", data := "z", pub_key := pk }

def emptyCache : SignersCache := { index := 0, signers := [] }

/-- An empty chain state. -/
def cE : Chain :=
  { origin := [], last_block := none, last_full_block := none, max_height := 0,
    db_blocks := [], db_domains := [], db_zones := [], zones := [], signers := emptyCache }

/- Chain for C1: a payload genesis with zero signing blocks above it, plus a
new candidate payload block at index 2. -/
def txZ1 : Transaction := mkZTx [20] [5]
def b1x : Block := mkB 1 10 28 [] [1] [5] (some txZ1)
def zrow1 : DbRow :=
  { id := 1, timestamp := 10, identity := [20], confirmation := [], data := "z", pub_key := [5] }
def c1x : Chain :=
  { origin := [1], last_block := some b1x, last_full_block := some b1x, max_height := 1,
    db_blocks := [b1x], db_domains := [], db_zones := [zrow1], zones := [], signers := emptyCache }
def txZ2 : Transaction := mkZTx [21] [7]
def bc1 : Block := mkB 2 20 28 [1] [2] [7] (some txZ2)

/- Chain for C3's counterexample: the only block below the payload block at
index 2 carries the same key, so the election loop can never finish. -/
def g3x : Block := mkB 1 10 28 [] [41] [5] (some txZ1)
def f3x : Block := mkB 2 20 28 [41] [42] [5] (some (mkZTx [21] [5]))
def c3x : Chain :=
  { origin := [41], last_block := some f3x, last_full_block := some f3x, max_height := 2,
    db_blocks := [g3x, f3x], db_domains := [], db_zones := [], zones := [], signers := emptyCache }

/- Chain for C3/C6 witnesses: eight blocks under a payload block at index 9,
with eight distinct keys. -/
def s9 (i : Nat) : Block := mkB i (10 * i) 16 [] [40 + i] [i] none
def f9 : Block := mkB 9 90 28 [] [49] [9] (some (mkZTx [23] [9]))
def c9ch : Chain :=
  { origin := [41], last_block := some f9, last_full_block := some f9, max_height := 9,
    db_blocks := [s9 1, s9 2, s9 3, s9 4, s9 5, s9 6, s9 7, s9 8, f9],
    db_domains := [], db_zones := [], zones := [], signers := emptyCache }

/- Chain for C5: three payload blocks, the third with a broken previous
hash. -/
def w1 : Block := mkB 1 10 28 [] [41] [5] (some txZ1)
def w2 : Block := mkB 2 20 28 [41] [42] [7] (some txZ2)
def w3 : Block := mkB 3 30 28 [99] [43] [8] (some (mkZTx [22] [8]))
def zrowA : DbRow :=
  { id := 1, timestamp := 10, identity := [20], confirmation := [], data := "z", pub_key := [5] }
def zrowB : DbRow :=
  { id := 2, timestamp := 20, identity := [21], confirmation := [], data := "z", pub_key := [7] }
def zrowC : DbRow :=
  { id := 3, timestamp := 30, identity := [22], confirmation := [], data := "z", pub_key := [8] }
def cW5 : Chain :=
  { origin := [41], last_block := some w3, last_full_block := some w3, max_height := 3,
    db_blocks := [w1, w2, w3], db_domains := [], db_zones := [zrowA, zrowB, zrowC],
    zones := [], signers := emptyCache }

/- Chains for C7: a domains row older than `DOMAIN_LIFETIME` owned by `[7]`
(counterexample) and a fresh one (witness). -/
def rowOld : DbRow :=
  { id := 5, timestamp := 0, identity := envT.hash_identity "foo.test",
    confirmation := [], data := "d", pub_key := [7] }
def c7bad : Chain :=
  { origin := [], last_block := none, last_full_block := none, max_height := 0,
    db_blocks := [], db_domains := [rowOld], db_zones := [], zones := ["test"],
    signers := emptyCache }
def rowNew : DbRow :=
  { id := 6, timestamp := 39000000, identity := envT.hash_identity "bar.test",
    confirmation := [], data := "d", pub_key := [7] }
def c7own : Chain :=
  { origin := [], last_block := none, last_full_block := none, max_height := 0,
    db_blocks := [], db_domains := [rowNew], db_zones := [], zones := ["test"],
    signers := emptyCache }

/- Chain for C8/C10: genesis plus a payload block at index 2, and a forged
twin of the second block. -/
def txG : Transaction := mkZTx [30] [5]
def g1 : Block := mkB 1 10 28 [] [11] [5] (some txG)
def b2c : Block := mkB 2 20 28 [11] [22] [7] (some (mkZTx [31] [7]))
def rowG : DbRow :=
  { id := 1, timestamp := 10, identity := [30], confirmation := [], data := "z", pub_key := [5] }
def rowB : DbRow :=
  { id := 2, timestamp := 20, identity := [31], confirmation := [], data := "z", pub_key := [7] }
def c2c : Chain :=
  { origin := [11], last_block := some b2c, last_full_block := some b2c, max_height := 2,
    db_blocks := [g1, b2c], db_domains := [], db_zones := [rowG, rowB],
    zones := [], signers := emptyCache }
def b2f : Block := mkB 2 25 28 [11] [33] [7] (some (mkZTx [32] [7]))

/- Jobs for C9. -/
def pbB : Block := mkB 5 0 0 [] [] [1] (some txG)
def sbB : Block := mkB 6 0 0 [] [] [2] none
def sbB2 : Block := mkB 7 0 0 [] [] [3] none
def curJob : MineJob := { start := 0, block := pbB }

/-- A transaction-less block at index 1 used to refute claim C2's difficulty
table. -/
def sb1 : Block := mkB 1 10 30 [] [1] [5] none

/-- An empty chain whose zones-seen cache already holds `"test"`. -/
def c4z : Chain := { cE with zones := ["test"] }

/-- The transaction `get_domain_transaction` reconstructs from the fresh row
of `c7own`. -/
def tNew : Transaction :=
  { identity := envT.hash_identity "bar.test", confirmation := [], tclass := "domain",
    data := "d", pub_key := [7] }

/-- The elected signers and post-call cache on the witness chain `c9ch`. -/
def sigR : List Bytes := [[2], [3], [4], [5], [6], [7], [8]]

def sigC : SignersCache := { index := 9, signers := sigR }

/-- The chaining invariant: every stored block above genesis points at the
hash of the stored block one index below (looked up with the engine's own
query). -/
def WellChained (blocks : List Block) : Prop :=
  ∀ b ∈ blocks, 1 < b.index →
    (dbGetBlock blocks (b.index - 1)).map Block.hash = some b.prev_block_hash

instance (blocks : List Block) : Decidable (WellChained blocks) := by
  unfold WellChained
  infer_instance

/-- A payload block whose difficulty field (10) is below the zone
requirement (28). -/
def bLow : Block := mkB 2 20 10 [1] [2] [7] (some txZ2)

/-! ### Structure-update projection lemmas -/

@[simp] lemma setSigners_db_blocks (c : Chain) (s : SignersCache) :
    ({ c with signers := s } : Chain).db_blocks = c.db_blocks := rfl

@[simp] lemma setSigners_db_domains (c : Chain) (s : SignersCache) :
    ({ c with signers := s } : Chain).db_domains = c.db_domains := rfl

@[simp] lemma setSigners_db_zones (c : Chain) (s : SignersCache) :
    ({ c with signers := s } : Chain).db_zones = c.db_zones := rfl

@[simp] lemma setSigners_get_height (c : Chain) (s : SignersCache) :
    ({ c with signers := s } : Chain).get_height = c.get_height := rfl

@[simp] lemma setSigners_signers (c : Chain) (s : SignersCache) :
    ({ c with signers := s } : Chain).signers = s := rfl

@[simp] lemma setLfb_db_blocks (c : Chain) (b : Option Block) :
    ({ c with last_full_block := b } : Chain).db_blocks = c.db_blocks := rfl

@[simp] lemma setLfb_db_domains (c : Chain) (b : Option Block) :
    ({ c with last_full_block := b } : Chain).db_domains = c.db_domains := rfl

@[simp] lemma setLfb_db_zones (c : Chain) (b : Option Block) :
    ({ c with last_full_block := b } : Chain).db_zones = c.db_zones := rfl

@[simp] lemma truncate_db_blocks (c : Chain) (k : Nat) :
    (c.truncate_db_from_block k).db_blocks = c.db_blocks.filter (fun b => b.index < k) := rfl

@[simp] lemma truncate_db_domains (c : Chain) (k : Nat) :
    (c.truncate_db_from_block k).db_domains = c.db_domains.filter (fun r => r.id < k) := rfl

@[simp] lemma truncate_db_zones (c : Chain) (k : Nat) :
    (c.truncate_db_from_block k).db_zones = c.db_zones.filter (fun r => r.id < k) := rfl

/-! ### Claim C1 -/

/-- Claim C1 (code_bug evidence): a candidate payload block at index 2
(`> BLOCK_SIGNERS_START`) whose previous payload block has zero signing
blocks above it (fewer than `BLOCK_SIGNERS_MIN`) is judged `Good` by
`check_block`, not `Bad`: `is_good_sign_block` returns `true` for every
payload block before reaching its payload-rejection branch, which is dead
code.  The spec (§4.4 and scenario 6) requires rejection. -/
theorem c1_payload_accepted_without_lock :
    c1x.last_full_block = some b1x ∧
    Chain.get_height c1x - b1x.index < BLOCK_SIGNERS_MIN ∧
    bc1.transaction.isSome = true ∧
    bc1.index > BLOCK_SIGNERS_START ∧
    (Chain.check_new_block envT c1x bc1 5).map Prod.fst = some BlockQuality.Good := by
  refine ⟨rfl, by decide, by decide, by decide, by decide⟩

/-! ### Claim C10 -/

/-- Claim C10: `next_allowed_full_block` is
`max(last_full_block.index + BLOCK_SIGNERS_MIN, height + 1)` when a last
payload block exists at index ≥ `BLOCK_SIGNERS_START`, `height + 1` when no
payload block exists, and in every case at least `height + 1`. -/
theorem c10_next_allowed_full_block (c : Chain) :
    (∀ b, c.last_full_block = some b → BLOCK_SIGNERS_START ≤ b.index →
      c.next_allowed_full_block = max (b.index + BLOCK_SIGNERS_MIN) (c.get_height + 1)) ∧
    (c.last_full_block = none → c.next_allowed_full_block = c.get_height + 1) ∧
    c.get_height + 1 ≤ c.next_allowed_full_block := by
  refine ⟨?_, ?_, ?_⟩
  · intro b hb _
    simp only [Chain.next_allowed_full_block, hb]
    rw [if_neg (by simp [BLOCK_SIGNERS_START])]
  · intro hb
    simp only [Chain.next_allowed_full_block, hb]
  · cases hb : c.last_full_block with
    | none => simp only [Chain.next_allowed_full_block, hb]; exact Nat.le_refl _
    | some b =>
      simp only [Chain.next_allowed_full_block, hb]
      by_cases hlt : b.index < BLOCK_SIGNERS_START
      · rw [if_pos hlt]
      · rw [if_neg hlt]
        exact Nat.le_max_right _ _

/-- Witness for C10: the theorem applied to a chain with a payload tip at
index 2 and to the empty chain. -/
theorem c10_witness :
    c2c.last_full_block = some b2c ∧ BLOCK_SIGNERS_START ≤ b2c.index ∧
    Chain.next_allowed_full_block c2c =
      max (b2c.index + BLOCK_SIGNERS_MIN) (Chain.get_height c2c + 1) ∧
    cE.last_full_block = none ∧
    Chain.next_allowed_full_block cE = Chain.get_height cE + 1 :=
  ⟨rfl, by decide, (c10_next_allowed_full_block c2c).1 b2c rfl (by decide),
   rfl, (c10_next_allowed_full_block cE).2.1 rfl⟩

/-! ### Claim C2 -/

/-- Counterexample to claim C2: the signing block `sb1` (no transaction) at
index 1 is required difficulty `ZONE_DIFFICULTY = 28` by `check_block`, not
`SIGNER_DIFFICULTY = 16` as the claim's table states for every signing
block. -/
theorem c2_counterexample :
    sb1.transaction = none ∧
    required_difficulty envT cE sb1 = ZONE_DIFFICULTY ∧
    required_difficulty envT cE sb1 ≠ SIGNER_DIFFICULTY := by
  refine ⟨rfl, by decide, by decide⟩

/-- Claim C2 (amended): the difficulty `check_block` requires is: 16
(`SIGNER_DIFFICULTY`) for a transaction-less block at index ≠ 1, 28
(`ZONE_DIFFICULTY`) for a transaction-less block at index 1, 28 for any
payload of class `zone` (genesis included), and for a payload of class
`domain` the difficulty declared by the zone named in its data
(`get_zone_difficulty`, which is `u32::MAX`, unattainable, when the zone is
missing) or `u32::MAX` when the data does not parse; and a block whose
`difficulty` field is below this requirement is `Bad` whenever the earlier
gates (version, timestamp, future-index, key strength) pass. -/
theorem c2_required_difficulty_amended (env : Env) (c : Chain) (b : Block) :
    (b.transaction = none → b.index ≠ 1 →
      required_difficulty env c b = SIGNER_DIFFICULTY) ∧
    (b.transaction = none → b.index = 1 →
      required_difficulty env c b = ZONE_DIFFICULTY) ∧
    (∀ t, b.transaction = some t → t.tclass = "zone" →
      required_difficulty env c b = ZONE_DIFFICULTY) ∧
    (∀ t, b.transaction = some t → t.tclass = "domain" →
      required_difficulty env c b =
        (match env.parse_domain_data t.data with
         | some d => c.get_zone_difficulty env d.zone
         | none => u32Max)) ∧
    (∀ last_block last_full_block fuel,
      b.version ≤ CHAIN_VERSION → b.timestamp ≤ env.now + 60 →
      (∀ last, last_block = some last → b.index ≤ last.index + 1) →
      env.check_public_key_strength b.pub_key KEYSTORE_DIFFICULTY = true →
      b.difficulty < required_difficulty env c b →
      c.check_block env b last_block last_full_block fuel =
        some (BlockQuality.Bad, c.signers)) := by
  refine ⟨?_, ?_, ?_, ?_, ?_⟩
  · intro h1 h2
    simp [required_difficulty, h1, h2]
  · intro h1 h2
    simp [required_difficulty, h1, h2]
  · intro t ht hc
    simp [required_difficulty, ht, Chain.get_difficulty_for_transaction, hc]
  · intro t ht hc
    simp only [required_difficulty, ht, Chain.get_difficulty_for_transaction, hc]
    cases hp : env.parse_domain_data t.data with
    | none => simp
    | some d => simp [Chain.get_zone_difficulty]
  · intro last_block last_full_block fuel h1 h2 h3 h4 h5
    unfold Chain.check_block
    rw [if_neg (by omega)]
    rw [if_neg (by omega)]
    cases last_block with
    | none =>
      rw [if_neg (by simp), h4]
      simp only [Bool.not_true]
      rw [if_neg (by simp), if_pos h5]
    | some last =>
      have hle := h3 last rfl
      rw [if_neg (by simp only [decide_eq_true_eq]; omega), h4]
      simp only [Bool.not_true]
      rw [if_neg (by simp), if_pos h5]

/-- Witness for C2 (amended): the index-1 rule applied to `sb1` and the
`Bad` verdict applied to the underpriced payload block `bLow` on `c1x`. -/
theorem c2_amended_witness :
    (sb1.transaction = none ∧ sb1.index = 1 ∧
      required_difficulty envT cE sb1 = ZONE_DIFFICULTY) ∧
    (bLow.version ≤ CHAIN_VERSION ∧ bLow.timestamp ≤ envT.now + 60 ∧
      envT.check_public_key_strength bLow.pub_key KEYSTORE_DIFFICULTY = true ∧
      bLow.difficulty < required_difficulty envT c1x bLow ∧
      Chain.check_block envT c1x bLow (some b1x) (some b1x) 5 =
        some (BlockQuality.Bad, c1x.signers)) :=
  ⟨⟨rfl, rfl, (c2_required_difficulty_amended envT cE sb1).2.1 rfl rfl⟩,
   ⟨by decide, by decide, by decide, by decide,
    (c2_required_difficulty_amended envT c1x bLow).2.2.2.2 (some b1x) (some b1x) 5
      (by decide) (by decide) (fun last hl => by cases hl; decide) (by decide) (by decide)⟩⟩

/-! ### Claim C4 -/

/-- Counterexample to claim C4: the single-label name `"test"` is accepted
by `is_domain_available` on an empty chain although it does not have two
labels and its trailing label is not a zone present in the blockchain. -/
theorem c4_counterexample :
    Chain.is_domain_available envT cE 10 "test" { public := [3] } = true ∧
    (splitDot "test").length = 1 ∧
    Chain.is_zone_in_blockchain envT cE 10 "test" = false := by
  refine ⟨by decide, by decide, by decide⟩

/-- Claim C4 (amended): `is_domain_available(height, fqdn, key) = true` only
if `fqdn` is non-empty, the identity `H(fqdn)` passes `is_id_available` for
kind domain, and — only when the name contains a dot — the part before the
last dot contains no further dot and the trailing label is a zone present in
the blockchain.  Single-label names pass with no zone membership or
syntactic-validity check (no external validity predicate is invoked). -/
theorem c4_domain_available_amended (env : Env) (c : Chain) (height : Nat)
    (domain : String) (ks : Keystore)
    (h : Chain.is_domain_available env c height domain ks = true) :
    domain ≠ "" ∧
    c.is_id_available height (env.hash_identity domain) ks.get_public false = true ∧
    ((rsplitn2 domain).length > 1 →
      containsDot ((rsplitn2 domain).getLastD "") = false ∧
      c.is_zone_in_blockchain env height ((rsplitn2 domain).headD "") = true) := by
  simp only [Chain.is_domain_available] at h
  by_cases hd : domain = ""
  · rw [if_pos hd] at h
    exact absurd h (by simp)
  · rw [if_neg hd] at h
    cases hav : c.is_id_available height (env.hash_identity domain) ks.get_public false with
    | false => rw [hav] at h; simp at h
    | true =>
      rw [hav] at h
      simp only [Bool.not_true] at h
      rw [if_neg (by simp)] at h
      refine ⟨hd, rfl, ?_⟩
      intro hlen
      rw [if_pos hlen] at h
      cases hcd : containsDot ((rsplitn2 domain).getLastD "") with
      | true => rw [hcd] at h; simp at h
      | false =>
        rw [hcd] at h
        rw [if_neg (by simp)] at h
        exact ⟨rfl, h⟩

/-- Witness for C4 (amended): the theorem applied to the two-label name
`"foo.test"` on a chain whose zones cache holds `"test"`. -/
theorem c4_amended_witness :
    Chain.is_domain_available envT c4z 10 "foo.test" { public := [3] } = true ∧
    ("foo.test" ≠ "" ∧
      Chain.is_id_available c4z 10 (envT.hash_identity "foo.test") [3] false = true ∧
      ((rsplitn2 "foo.test").length > 1 →
        containsDot ((rsplitn2 "foo.test").getLastD "") = false ∧
        Chain.is_zone_in_blockchain envT c4z 10 ((rsplitn2 "foo.test").headD "") = true)) :=
  ⟨by decide,
   c4_domain_available_amended envT c4z 10 "foo.test" { public := [3] } (by decide)⟩

/-! ### Claim C7 -/

/-- Counterexample to claim C7: the chain `c7bad` holds a domain row for
`"foo.test"` owned by key `[7]` (different from the caller's `[1]`), the
zone exists and the name is valid, yet `can_mine_domain` returns `Fine`,
not `NotOwned` — the stored row is older than `DOMAIN_LIFETIME`, so
`get_domain_transaction` ignores it. -/
theorem c7_counterexample :
    envT.check_domain (strToLower "foo.test") true = true ∧
    Chain.is_zone_in_blockchain envT c7bad 100
      (envT.get_domain_zone (strToLower "foo.test")) = true ∧
    rowOld ∈ c7bad.db_domains ∧
    rowOld.identity = envT.hash_identity "foo.test" ∧
    rowOld.pub_key ≠ [1] ∧
    Chain.can_mine_domain envT c7bad 100 "foo.test" [1] = MineResult.Fine := by
  refine ⟨by decide, by decide, by decide, by decide, by decide, by decide⟩

/-- Claim C7 (amended): when the name is valid, its zone exists, and
`get_domain_transaction` — the most recent not-expired row for the identity
that passes the identity check — returns a transaction whose `pub_key`
differs from the caller's key, `can_mine_domain` returns `NotOwned`. -/
theorem c7_not_owned_amended (env : Env) (c : Chain) (height : Nat) (domain : String)
    (key : Bytes) (t : Transaction)
    (h1 : env.check_domain (strToLower domain) true = true)
    (h2 : Chain.is_zone_in_blockchain env c height
      (env.get_domain_zone (strToLower domain)) = true)
    (h3 : Chain.get_domain_transaction env c (strToLower domain) = some t)
    (h4 : t.pub_key ≠ key) :
    Chain.can_mine_domain env c height domain key = MineResult.NotOwned := by
  simp only [Chain.can_mine_domain, h1, h2, h3, Bool.not_true]
  rw [if_neg (by simp), if_neg (by simp)]
  rw [if_pos (by simpa [bne_iff_ne] using h4)]

/-- Witness for C7 (amended): a fresh domain row owned by `[7]` makes the
caller `[1]` receive `NotOwned`. -/
theorem c7_amended_witness :
    envT.check_domain (strToLower "bar.test") true = true ∧
    Chain.is_zone_in_blockchain envT c7own 100
      (envT.get_domain_zone (strToLower "bar.test")) = true ∧
    Chain.get_domain_transaction envT c7own (strToLower "bar.test") = some tNew ∧
    tNew.pub_key ≠ [1] ∧
    Chain.can_mine_domain envT c7own 100 "bar.test" [1] = MineResult.NotOwned :=
  ⟨by decide, by decide, by decide, by decide,
   c7_not_owned_amended envT c7own 100 "bar.test" [1] tNew (by decide) (by decide)
     (by decide) (by decide)⟩

/-! ### Claim C9 -/

/-- Counterexample to claim C9: a queue holding a payload job ahead of a
signing job is reachable via `Miner::add_block`; one pass of the scheduler's
payload-mining branch then pushes a second, engine-provided signing job
without evicting the queued one, so a reachable queue holds two signing
jobs. -/
theorem c9_counterexample :
    ∃ jobs, MinerQueueReach jobs ∧ 2 ≤ countSigning jobs := by
  refine ⟨scheduler_full_step 100 5 (some sbB2) curJob
      (miner_add_block (miner_add_block [] pbB) sbB), ?_, by decide⟩
  exact MinerQueueReach.full _ 100 5 (some sbB2) curJob
    (MinerQueueReach.add _ sbB (MinerQueueReach.add _ pbB MinerQueueReach.init))
    (by decide) (fun b hb => by cases hb; rfl)

lemma countSigning_cons (j : MineJob) (l : List MineJob) :
    countSigning (j :: l) = (if j.is_signing then 1 else 0) + countSigning l := by
  cases hj : j.is_signing <;>
    simp [countSigning, List.filter_cons, hj, Nat.add_comm]

lemma countSigning_append (a b : List MineJob) :
    countSigning (a ++ b) = countSigning a + countSigning b := by
  simp [countSigning, List.filter_append]

lemma countSigning_filter_full (jobs : List MineJob) :
    countSigning (jobs.filter (fun job => job.block.transaction.isSome)) = 0 := by
  induction jobs with
  | nil => rfl
  | cons j rest ih =>
    rw [List.filter_cons]
    cases hj : j.block.transaction with
    | none => simpa [hj] using ih
    | some t =>
      simp only [hj, Option.isSome_some, if_pos]
      rw [countSigning_cons]
      simp [MineJob.is_signing, hj, ih]

/-- Claim C9 (amended): `Miner::add_block` enforces the bound at enqueue
time — adding a signing job leaves exactly one signing job, adding a payload
job preserves the signing count — and the scheduler's re-insertions (with no
engine-provided signing block) never increase the signing count; but the
scheduler's push of an engine-provided signing job behind a payload head can
exceed the bound (see the counterexample). -/
theorem c9_queue_amended :
    (∀ (jobs : List MineJob) (b : Block), b.transaction = none →
      countSigning (miner_add_block jobs b) = 1) ∧
    (∀ (jobs : List MineJob) (b : Block) (t : Transaction), b.transaction = some t →
      countSigning (miner_add_block jobs b) = countSigning jobs) ∧
    (∀ (now delay : Int) (cur : MineJob) (jobs : List MineJob), cur.is_full = true →
      countSigning (scheduler_full_step now delay none cur jobs) ≤ countSigning jobs) ∧
    (∀ (now delay : Int) (jobs : List MineJob),
      countSigning (scheduler_idle_step now delay none jobs) ≤ countSigning jobs) := by
  refine ⟨?_, ?_, ?_, ?_⟩
  · intro jobs b hb
    unfold miner_add_block
    rw [hb]
    simp only [Option.isNone_none, if_pos]
    rw [countSigning_append, countSigning_filter_full]
    simp [countSigning, List.filter_cons, MineJob.is_signing, hb]
  · intro jobs b t hb
    unfold miner_add_block
    rw [hb]
    simp only [Option.isNone_some, Bool.false_eq_true, if_neg, ite_false]
    rw [countSigning_append]
    simp [countSigning, List.filter_cons, MineJob.is_signing, hb]
  · intro now delay cur jobs hcur
    cases jobs with
    | nil => simp [scheduler_full_step, countSigning]
    | cons j rest =>
      simp only [scheduler_full_step]
      by_cases h1 : (j.is_signing && j.is_due now) = true
      · rw [if_pos h1]
        have hcs : cur.is_signing = false := by
          unfold MineJob.is_full at hcur
          unfold MineJob.is_signing
          cases hc : cur.block.transaction with
          | none => rw [hc] at hcur; simp at hcur
          | some t => simp
        have hjs : j.is_signing = true := by
          cases hx : j.is_signing with
          | true => rfl
          | false => rw [hx] at h1; simp at h1
        rw [countSigning_cons, countSigning_cons, hcs, hjs]
        simp
      · rw [if_neg h1]
        by_cases h2 : j.is_signing = true
        · rw [if_pos h2]
        · rw [if_neg h2]
  · intro now delay jobs
    cases jobs with
    | nil => simp [scheduler_idle_step, countSigning]
    | cons j rest =>
      simp only [scheduler_idle_step]
      by_cases h1 : j.is_due now = true
      · rw [if_pos h1, countSigning_cons]
        omega
      · rw [if_neg h1]

/-- Witness for C9 (amended): the theorem's four bounds applied to concrete
queues and jobs. -/
theorem c9_amended_witness :
    sbB.transaction = none ∧
    countSigning (miner_add_block [curJob] sbB) = 1 ∧
    pbB.transaction = some txG ∧
    countSigning (miner_add_block [curJob] pbB) = countSigning [curJob] ∧
    curJob.is_full = true ∧
    countSigning (scheduler_full_step 100 5 none curJob [curJob]) ≤ countSigning [curJob] ∧
    countSigning (scheduler_idle_step 100 5 none [curJob]) ≤ countSigning [curJob] :=
  ⟨rfl, c9_queue_amended.1 [curJob] sbB rfl, rfl,
   c9_queue_amended.2.1 [curJob] pbB txG rfl, by decide,
   c9_queue_amended.2.2.1 100 5 curJob [curJob] (by decide),
   c9_queue_amended.2.2.2 100 5 [curJob]⟩

/-! ### Claim C3 -/

lemma contains_iff_mem {l : List Bytes} {a : Bytes} : l.contains a = true ↔ a ∈ l := by
  rw [List.contains]; exact List.elem_iff

lemma signersElect_length_ge (blocks : List Block) (fkey : Bytes) (tail window : Nat) :
    ∀ (fuel : Nat) (result : List Bytes) (count : Nat) (r : List Bytes),
      signersElect blocks fkey tail window result count fuel = some r →
      BLOCK_SIGNERS_ALL ≤ r.length := by
  intro fuel
  induction fuel with
  | zero =>
    intro result count r h
    simp only [signersElect] at h
    split at h
    · cases h; assumption
    · exact Option.noConfusion h
  | succ n ih =>
    intro result count r h
    simp only [signersElect] at h
    split at h
    · cases h; assumption
    · exact ih _ _ _ h

/-- Invariant of the election loop: whenever it returns, the vector has
exactly `BLOCK_SIGNERS_ALL` pairwise-distinct keys, none equal to the
payload block's key. -/
lemma signersElect_spec (blocks : List Block) (fkey : Bytes) (tail window : Nat) :
    ∀ (fuel : Nat) (result : List Bytes) (count : Nat) (r : List Bytes),
      result.Nodup → (∀ k ∈ result, k ≠ fkey) → result.length ≤ BLOCK_SIGNERS_ALL →
      signersElect blocks fkey tail window result count fuel = some r →
      r.length = BLOCK_SIGNERS_ALL ∧ r.Nodup ∧ ∀ k ∈ r, k ≠ fkey := by
  intro fuel
  induction fuel with
  | zero =>
    intro result count r hnd hkeys hlen h
    simp only [signersElect] at h
    split at h
    · cases h; exact ⟨Nat.le_antisymm hlen (by assumption), hnd, hkeys⟩
    · exact Option.noConfusion h
  | succ n ih =>
    intro result count r hnd hkeys hlen h
    simp only [signersElect] at h
    split at h
    · cases h; exact ⟨Nat.le_antisymm hlen (by assumption), hnd, hkeys⟩
    · rename_i hlt
      cases hb : dbGetBlock blocks ((tail * count) % U64MOD % window + 1) with
      | none =>
        simp only [hb] at h
        exact ih _ _ _ hnd hkeys hlen h
      | some b =>
        simp only [hb] at h
        by_cases hc : b.pub_key ≠ fkey ∧ ¬ (result.contains b.pub_key) = true
        · rw [if_pos hc] at h
          have hmem : b.pub_key ∉ result := fun hm => hc.2 (contains_iff_mem.mpr hm)
          refine ih _ _ _ ?_ ?_ ?_ h
          · rw [← List.concat_eq_append]
            exact List.Nodup.concat hmem hnd
          · intro k hk
            rcases List.mem_append.mp hk with hk | hk
            · exact hkeys k hk
            · rw [List.mem_singleton.mp hk]; exact hc.1
          · rw [List.length_append]
            simp only [List.length_singleton]
            omega
        · rw [if_neg hc] at h
          exact ih _ _ _ hnd hkeys hlen h

/-- Claim C3 (amended): when the signer election of `get_block_signers`
does return (fuel suffices), the cache is cold and the chain is at least as
high as the payload block, the result is an ordered vector of exactly
`BLOCK_SIGNERS_ALL = 7` distinct keys, each different from `F.pub_key`;
termination itself is refuted by the counterexample. -/
theorem c3_signers_amended (env : Env) (c : Chain) (F : Block) (fuel : Nat)
    (r : List Bytes) (cc : SignersCache)
    (hh : F.index ≤ c.get_height)
    (hcache : c.signers.signers = [])
    (h : Chain.get_block_signers env c F fuel = some (r, cc)) :
    r.length = BLOCK_SIGNERS_ALL ∧ r.Nodup ∧ ∀ k ∈ r, k ≠ F.pub_key := by
  unfold Chain.get_block_signers at h
  rw [if_neg (by simp only [BLOCK_SIGNERS_START]; omega)] at h
  cases ht : F.transaction.isNone with
  | true => rw [ht] at h; exact Option.noConfusion h
  | false =>
    rw [ht] at h
    rw [if_neg (by simp)] at h
    have hcold : c.signers.has_signers_for F.index = false := by
      simp [SignersCache.has_signers_for, hcache]
    rw [hcold] at h
    rw [if_neg (by simp)] at h
    by_cases hw : F.index - 1 = 0
    · rw [if_pos hw] at h; exact Option.noConfusion h
    · rw [if_neg hw] at h
      cases he : signersElect c.db_blocks F.pub_key (get_tail_u64 F.signature)
          (F.index - 1) [] 1 fuel with
      | none => rw [he] at h; exact Option.noConfusion h
      | some result =>
        rw [he] at h
        injection h with h1
        have hr1 : result = r := congrArg Prod.fst h1
        subst hr1
        exact signersElect_spec c.db_blocks F.pub_key (get_tail_u64 F.signature)
          (F.index - 1) fuel [] 1 result (List.nodup_nil) (by simp)
          (by simp [BLOCK_SIGNERS_ALL]) he

/-- On `c3x` every index the election loop can probe resolves to block 1,
whose key equals the payload block's key, so the loop never adds a signer
and never returns. -/
lemma c3x_elect_stuck (tail : Nat) :
    ∀ (fuel count : Nat),
      signersElect c3x.db_blocks f3x.pub_key tail 1 [] count fuel = none := by
  intro fuel
  induction fuel with
  | zero => intro count; simp [signersElect, BLOCK_SIGNERS_ALL]
  | succ n ih =>
    intro count
    simp only [signersElect]
    rw [if_neg (by simp [BLOCK_SIGNERS_ALL])]
    rw [Nat.mod_one]
    have hg : dbGetBlock c3x.db_blocks (0 + 1) = some g3x := by decide
    simp only [hg]
    rw [if_neg (by decide)]
    exact ih (count + 1)

/-- Counterexample to claim C3: on the chain `c3x` (height 2 ≥ F.index = 2,
payload block `f3x`), the signer-election loop of `get_block_signers` never
terminates — no fuel makes it return — because the single block below `F`
is mined with `F`'s own key. -/
theorem c3_counterexample :
    f3x.transaction.isSome = true ∧
    f3x.index ≤ Chain.get_height c3x ∧
    BLOCK_SIGNERS_START ≤ f3x.index ∧
    ¬ ∃ (fuel : Nat) (p : List Bytes × SignersCache),
        Chain.get_block_signers envT c3x f3x fuel = some p := by
  refine ⟨by decide, by decide, by decide, ?_⟩
  rintro ⟨fuel, p, h⟩
  unfold Chain.get_block_signers at h
  rw [if_neg (by decide)] at h
  rw [(by decide : f3x.transaction.isNone = false)] at h
  rw [if_neg (by simp)] at h
  rw [(by decide : c3x.signers.has_signers_for f3x.index = false)] at h
  rw [if_neg (by simp)] at h
  rw [if_neg (by decide : ¬ f3x.index - 1 = 0)] at h
  rw [(by decide : f3x.index - 1 = 1)] at h
  rw [c3x_elect_stuck (get_tail_u64 f3x.signature) fuel 1] at h
  exact Option.noConfusion h

/-- Witness for C3 (amended): on `c9ch` the election returns seven distinct
keys, none equal to `f9.pub_key`. -/
theorem c3_amended_witness :
    f9.index ≤ Chain.get_height c9ch ∧
    c9ch.signers.signers = [] ∧
    Chain.get_block_signers envT c9ch f9 10 = some (sigR, sigC) ∧
    (sigR.length = BLOCK_SIGNERS_ALL ∧ sigR.Nodup ∧ ∀ k ∈ sigR, k ≠ f9.pub_key) :=
  ⟨by decide, rfl, by decide,
   c3_signers_amended envT c9ch f9 10 sigR sigC (by decide) rfl (by decide)⟩

/-! ### Claim C6 -/

/-- Claim C6: for a fixed chain state (with a cold signer cache, the state
every reachable cache assumes before a first election) `get_block_signers`
is deterministic — the call immediately after (cache now warm) and a call
with the cache cleared both return the same ordered vector. -/
theorem c6_signers_deterministic (env : Env) (c : Chain) (F : Block) (fuel : Nat)
    (r : List Bytes) (cc : SignersCache)
    (hcache : c.signers.signers = [])
    (h : Chain.get_block_signers env c F fuel = some (r, cc)) :
    (∃ s2, Chain.get_block_signers env { c with signers := cc } F fuel = some (r, s2)) ∧
    (∃ s3, Chain.get_block_signers env { c with signers := cc.clear } F fuel = some (r, s3)) := by
  unfold Chain.get_block_signers at h ⊢
  simp only [setSigners_get_height, setSigners_signers, setSigners_db_blocks]
  have hfalse : ¬((false : Bool) = true) := by simp
  by_cases hg : F.index < BLOCK_SIGNERS_START ∨ c.get_height < F.index
  · rw [if_pos hg] at h
    injection h with h1
    have hr1 : ([] : List Bytes) = r := congrArg Prod.fst h1
    subst hr1
    rw [if_pos hg, if_pos hg]
    exact ⟨⟨_, rfl⟩, ⟨_, rfl⟩⟩
  · rw [if_neg hg] at h
    cases ht : F.transaction.isNone with
    | true => rw [ht] at h; exact Option.noConfusion h
    | false =>
      rw [ht] at h
      rw [if_neg hfalse] at h
      have hcold : c.signers.has_signers_for F.index = false := by
        simp [SignersCache.has_signers_for, hcache]
      rw [hcold] at h
      rw [if_neg hfalse] at h
      by_cases hw : F.index - 1 = 0
      · rw [if_pos hw] at h; exact Option.noConfusion h
      · rw [if_neg hw] at h
        cases he : signersElect c.db_blocks F.pub_key (get_tail_u64 F.signature)
            (F.index - 1) [] 1 fuel with
        | none => rw [he] at h; exact Option.noConfusion h
        | some result =>
          rw [he] at h
          injection h with h1
          have hr1 : result = r := congrArg Prod.fst h1
          subst hr1
          have hr2 : ({ index := F.index, signers := result } : SignersCache) = cc :=
            congrArg Prod.snd h1
          subst hr2
          have hne : result ≠ [] := by
            have hge := signersElect_length_ge c.db_blocks F.pub_key (get_tail_u64 F.signature)
              (F.index - 1) fuel [] 1 result he
            intro hnil
            rw [hnil] at hge
            simp [BLOCK_SIGNERS_ALL] at hge
          constructor
          · -- warm cache: the memoized vector is returned
            refine ⟨{ index := F.index, signers := result }, ?_⟩
            rw [if_neg hg, if_neg hfalse]
            have hwarm : SignersCache.has_signers_for
                { index := F.index, signers := result } F.index = true := by
              simp [SignersCache.has_signers_for, hne]
            rw [if_pos hwarm]
          · -- cleared cache: the election recomputes the same vector
            refine ⟨{ index := F.index, signers := result }, ?_⟩
            rw [if_neg hg, if_neg hfalse]
            have hcold2 : SignersCache.has_signers_for
                (SignersCache.clear { index := F.index, signers := result }) F.index = false := by
              simp [SignersCache.has_signers_for, SignersCache.clear]
            rw [hcold2]
            rw [if_neg hfalse]
            rw [if_neg hw]

/-- Witness for C6: two further calls on `c9ch` (warm cache, cleared cache)
return the vector of the first call. -/
theorem c6_witness :
    c9ch.signers.signers = [] ∧
    Chain.get_block_signers envT c9ch f9 10 = some (sigR, sigC) ∧
    (∃ s2, Chain.get_block_signers envT { c9ch with signers := sigC } f9 10 = some (sigR, s2)) ∧
    (∃ s3, Chain.get_block_signers envT { c9ch with signers := sigC.clear } f9 10 =
      some (sigR, s3)) := by
  have H := c6_signers_deterministic envT c9ch f9 10 sigR sigC rfl (by decide)
  exact ⟨rfl, by decide, H.1, H.2⟩

/-! ### Table-query lemmas -/

lemma dbGetBlock_index (blocks : List Block) (i : Nat) (b : Block)
    (h : dbGetBlock blocks i = some b) : b.index = i := by
  have := List.find?_some h
  simpa using this

lemma dbGetBlock_append_some (l l2 : List Block) (i : Nat) (r : Block)
    (h : dbGetBlock l i = some r) : dbGetBlock (l ++ l2) i = some r := by
  unfold dbGetBlock at h ⊢
  rw [List.find?_append, h]
  rfl

lemma dbGetBlock_of_mem (l : List Block) (i : Nat)
    (h : ∃ b ∈ l, b.index = i) :
    ∃ r, dbGetBlock l i = some r ∧ r.index = i := by
  obtain ⟨b, hb, hbi⟩ := h
  have hsome : (l.find? (fun b => b.index == i)).isSome :=
    List.find?_isSome.mpr ⟨b, hb, by simp [hbi]⟩
  obtain ⟨r, hr⟩ := Option.isSome_iff_exists.mp hsome
  exact ⟨r, hr, dbGetBlock_index l i r hr⟩

lemma dbGetBlock_range' (l : List Block) (s n i : Nat)
    (hm : l.map Block.index = List.range' s n) (h1 : s ≤ i) (h2 : i < s + n) :
    ∃ r, dbGetBlock l i = some r ∧ r.index = i := by
  apply dbGetBlock_of_mem
  have : i ∈ l.map Block.index := by
    rw [hm]
    exact List.mem_range'_1.mpr ⟨h1, h2⟩
  obtain ⟨b, hb, hbi⟩ := List.mem_map.mp this
  exact ⟨b, hb, hbi⟩

lemma find?_cons_true {α : Type _} (p : α → Bool) (a : α) (l : List α) (h : p a = true) :
    (a :: l).find? p = some a := by
  simp [List.find?_cons, h]

lemma find?_cons_false {α : Type _} (p : α → Bool) (a : α) (l : List α) (h : p a = false) :
    (a :: l).find? p = l.find? p := by
  simp [List.find?_cons, h]

lemma dbGetBlock_filter (l : List Block) (p : Block → Bool) (i : Nat) (r : Block)
    (h : dbGetBlock l i = some r) (hp : p r = true) :
    dbGetBlock (l.filter p) i = some r := by
  unfold dbGetBlock at h ⊢
  induction l with
  | nil => exact Option.noConfusion h
  | cons x rest ih =>
    cases hxi : (x.index == i) with
    | true =>
      rw [find?_cons_true (fun b => b.index == i) x rest hxi] at h
      injection h with hx
      subst hx
      rw [List.filter_cons, if_pos hp,
        find?_cons_true (fun b => b.index == i) x (rest.filter p) hxi]
    | false =>
      rw [find?_cons_false (fun b => b.index == i) x rest hxi] at h
      rw [List.filter_cons]
      by_cases hpx : p x = true
      · rw [if_pos hpx, find?_cons_false (fun b => b.index == i) x (rest.filter p) hxi]
        exact ih h
      · rw [if_neg hpx]
        exact ih h

lemma maxIdBlock_eq_none (l : List Block) : maxIdBlock l = none ↔ l = [] := by
  cases l with
  | nil => simp [maxIdBlock]
  | cons b rest =>
    simp only [maxIdBlock]
    cases maxIdBlock rest with
    | none => simp
    | some a =>
      by_cases h : a.index ≤ b.index
      · simp [h]
      · simp [h]

lemma maxIdBlock_spec (l : List Block) (hl : l ≠ []) :
    ∃ b, maxIdBlock l = some b ∧ b ∈ l ∧ ∀ a ∈ l, a.index ≤ b.index := by
  induction l with
  | nil => exact absurd rfl hl
  | cons x rest ih =>
    cases hr : maxIdBlock rest with
    | none =>
      have hre : rest = [] := (maxIdBlock_eq_none rest).mp hr
      subst hre
      refine ⟨x, by simp [maxIdBlock], by simp, by simp⟩
    | some a =>
      have hrne : rest ≠ [] := by
        intro hn; rw [hn] at hr; simp [maxIdBlock] at hr
      obtain ⟨b, hb, hbm, hball⟩ := ih hrne
      rw [hr] at hb
      injection hb with hba
      subst hba
      by_cases hle : a.index ≤ x.index
      · refine ⟨x, by simp [maxIdBlock, hr, hle], by simp, ?_⟩
        intro y hy
        rcases List.mem_cons.mp hy with hy | hy
        · rw [hy]
        · exact Nat.le_trans (hball y hy) hle
      · refine ⟨a, by simp [maxIdBlock, hr, hle], List.mem_cons_of_mem _ hbm, ?_⟩
        intro y hy
        rcases List.mem_cons.mp hy with hy | hy
        · rw [hy]; omega
        · exact hball y hy

/-- On a table whose ids are exactly `s, …, s+n-1`, the last-row query
returns the row with id `s+n-1`. -/
lemma maxIdBlock_range' (l : List Block) (s n : Nat) (hn : 0 < n)
    (hm : l.map Block.index = List.range' s n) :
    ∃ b, maxIdBlock l = some b ∧ b.index = s + n - 1 := by
  have hl : l ≠ [] := by
    intro h
    rw [h] at hm
    have := (List.range'_eq_nil).mp hm.symm
    omega
  obtain ⟨b, hb, hbm, hball⟩ := maxIdBlock_spec l hl
  have hmem : s + n - 1 ∈ l.map Block.index := by
    rw [hm]
    exact List.mem_range'_1.mpr ⟨by omega, by omega⟩
  obtain ⟨t, ht, hti⟩ := List.mem_map.mp hmem
  have h1 : t.index ≤ b.index := hball t ht
  have h2 : b.index ∈ l.map Block.index := List.mem_map_of_mem _ hbm
  rw [hm] at h2
  have h3 := List.mem_range'_1.mp h2
  exact ⟨b, hb, by omega⟩

lemma map_index_filter_lt :
    ∀ (l : List Block) (s n k : Nat),
      l.map Block.index = List.range' s n →
      (l.filter (fun b => b.index < k)).map Block.index = List.range' s (min n (k - s)) := by
  intro l
  induction l with
  | nil =>
    intro s n k h
    have : n = 0 := (List.range'_eq_nil).mp h.symm
    subst this
    simp
  | cons b rest ih =>
    intro s n k h
    cases n with
    | zero => simp [List.range'] at h
    | succ m =>
      rw [List.range'_succ] at h
      simp only [List.map_cons, List.cons.injEq] at h
      obtain ⟨hbs, hrest⟩ := h
      by_cases hsk : s < k
      · rw [List.filter_cons, if_pos (by simp [hbs, hsk])]
        rw [List.map_cons, ih (s + 1) m k hrest]
        have hmin : min (Nat.succ m) (k - s) = min m (k - (s + 1)) + 1 := by omega
        rw [hmin, List.range'_succ, hbs]
      · rw [List.filter_cons, if_neg (by simp [hbs]; omega)]
        rw [ih (s + 1) m k hrest]
        have h1 : min m (k - (s + 1)) = 0 := by omega
        have h2 : min (Nat.succ m) (k - s) = 0 := by omega
        rw [h1, h2]
        rfl

/-! ### Claim C5 -/

@[simp] lemma setLastBlock_db_blocks (c : Chain) (b : Option Block) :
    ({ c with last_block := b } : Chain).db_blocks = c.db_blocks := rfl

@[simp] lemma setLastBlock_db_domains (c : Chain) (b : Option Block) :
    ({ c with last_block := b } : Chain).db_domains = c.db_domains := rfl

@[simp] lemma setLastBlock_db_zones (c : Chain) (b : Option Block) :
    ({ c with last_block := b } : Chain).db_zones = c.db_zones := rfl

@[simp] lemma setLastBlock_last_block (c : Chain) (b : Option Block) :
    ({ c with last_block := b } : Chain).last_block = b := rfl

@[simp] lemma setLfb_last_block (c : Chain) (b : Option Block) :
    ({ c with last_full_block := b } : Chain).last_block = c.last_block := rfl

/-- The walks of `firstBadLoop` and `checkChainLoop` agree: when the former
finds its first non-`Good` block at index `k`, the latter returns the chain
truncated at `k` (the walk itself only mutates the in-memory caches, so the
tables of the state at the moment of truncation are the initial ones). -/
lemma firstBad_loop_truncates (env : Env) (fuel : Nat) :
    ∀ (ids : List Nat) (c : Chain) (lb lfb : Option Block) (k : Nat),
      firstBadLoop env fuel c ids lb lfb = some k →
      k ∈ ids ∧
      ∃ c', checkChainLoop env fuel c ids lb lfb = some c' ∧
        c'.db_blocks = c.db_blocks.filter (fun b => b.index < k) ∧
        c'.db_domains = c.db_domains.filter (fun r => r.id < k) ∧
        c'.db_zones = c.db_zones.filter (fun r => r.id < k) := by
  intro ids
  induction ids with
  | nil => intro c lb lfb k h; simp [firstBadLoop] at h
  | cons id rest ih =>
    intro c lb lfb k h
    simp only [firstBadLoop] at h
    simp only [checkChainLoop]
    cases hb : c.get_block id with
    | none =>
      simp only [hb] at h
      exact Option.noConfusion h
    | some block =>
      simp only [hb] at h ⊢
      by_cases hgen : block.index = 1
      · rw [if_pos hgen] at h ⊢
        by_cases hor : block.hash ≠ c.origin
        · rw [if_pos hor] at h
          exact Option.noConfusion h
        · rw [if_neg hor] at h ⊢
          obtain ⟨hmem, c', hc', h1, h2, h3⟩ := ih c (some block) lfb k h
          exact ⟨List.mem_cons_of_mem _ hmem, c', hc', h1, h2, h3⟩
      · rw [if_neg hgen] at h ⊢
        cases hcb : c.check_block env block lb lfb fuel with
        | none =>
          simp only [hcb] at h
          exact Option.noConfusion h
        | some qs =>
          obtain ⟨q, s⟩ := qs
          simp only [hcb] at h ⊢
          by_cases hq : q ≠ BlockQuality.Good
          · rw [if_pos hq] at h ⊢
            injection h with hk
            subst hk
            have hbi : block.index = id := dbGetBlock_index c.db_blocks id block hb
            refine ⟨by rw [hbi]; exact List.mem_cons_self _ _, _, rfl, by simp, by simp, by simp⟩
          · rw [if_neg hq] at h ⊢
            cases ht : block.transaction.isSome with
            | true =>
              simp only [ht, eq_self_iff_true, if_true] at h ⊢
              obtain ⟨hmem, c', hc', h1, h2, h3⟩ := ih _ (some block) (some block) k h
              refine ⟨List.mem_cons_of_mem _ hmem, c', hc', ?_, ?_, ?_⟩
              · simpa using h1
              · simpa using h2
              · simpa using h3
            | false =>
              simp only [ht, Bool.false_eq_true, if_false] at h ⊢
              obtain ⟨hmem, c', hc', h1, h2, h3⟩ := ih _ (some block) lfb k h
              refine ⟨List.mem_cons_of_mem _ hmem, c', hc', ?_, ?_, ?_⟩
              · simpa using h1
              · simpa using h2
              · simpa using h3

/-- Claim C5: if `first_bad` — the index of the first block the
`check_chain` walk judges non-`Good` — is `k > 1` on a contiguous stored
chain of height `hgt`, then `check_chain` succeeds, removes every row with
id ≥ `k` from the `blocks`, `domains` and `zones` tables, leaves the rows
with id < `k` unchanged, and the resulting height is `k - 1`. -/
theorem c5_check_chain_truncates (env : Env) (c : Chain) (count fuel : Nat) (hgt k : Nat)
    (hmap : c.db_blocks.map Block.index = List.range' 1 hgt)
    (hh : c.get_height = hgt)
    (hk : c.first_bad env count fuel = some k)
    (hk1 : 1 < k) :
    ∃ c', c.check_chain env count fuel = some c' ∧
      c'.db_blocks = c.db_blocks.filter (fun b => b.index < k) ∧
      c'.db_domains = c.db_domains.filter (fun r => r.id < k) ∧
      c'.db_zones = c.db_zones.filter (fun r => r.id < k) ∧
      c'.get_height = k - 1 := by
  simp only [Chain.first_bad] at hk
  simp only [Chain.check_chain]
  rw [hh] at hk ⊢
  obtain ⟨hmem, c₀, hc₀, h1, h2, h3⟩ := firstBad_loop_truncates env fuel _ c _ _ k hk
  simp only [hc₀]
  have hkle : k ≤ hgt := by
    have hsle : (if hgt > count then hgt - count + 1 else 1) ≤ hgt + 1 := by
      split <;> omega
    have := List.mem_range'_1.mp hmem
    omega
  have hfmap : c₀.db_blocks.map Block.index = List.range' 1 (k - 1) := by
    rw [h1]
    have := map_index_filter_lt c.db_blocks 1 hgt k hmap
    rw [this]
    have : min hgt (k - 1) = k - 1 := by omega
    rw [this]
  obtain ⟨bm, hbm, hbmi⟩ := maxIdBlock_range' c₀.db_blocks 1 (k - 1) (by omega) hfmap
  refine ⟨_, rfl, by simpa using h1, by simpa using h2, by simpa using h3, ?_⟩
  simp only [Chain.get_height, setLfb_last_block, setLastBlock_last_block,
    Chain.load_last_block, hbm]
  omega

/-- Witness for C5: on `cW5` (block 3 has a broken previous hash) the walk
finds its first bad block at index 3, and `check_chain` truncates all three
tables at 3 and leaves height 2. -/
theorem c5_witness :
    cW5.db_blocks.map Block.index = List.range' 1 3 ∧
    Chain.get_height cW5 = 3 ∧
    Chain.first_bad envT cW5 8 5 = some 3 ∧
    (∃ c', Chain.check_chain envT cW5 8 5 = some c' ∧
      c'.db_blocks = cW5.db_blocks.filter (fun b => b.index < 3) ∧
      c'.db_domains = cW5.db_domains.filter (fun r => r.id < 3) ∧
      c'.db_zones = cW5.db_zones.filter (fun r => r.id < 3) ∧
      c'.get_height = 3 - 1) :=
  ⟨by decide, by decide, by decide,
   c5_check_chain_truncates envT cW5 8 5 3 3 (by decide) (by decide) (by decide) (by decide)⟩

/-! ### Claim C8 -/

lemma not_good_result (X : BlockQuality) (s' : SignersCache) (q : BlockQuality)
    (s : SignersCache)
    (h : (some (X, s') : Option (BlockQuality × SignersCache)) = some (q, s))
    (hq : q = BlockQuality.Good ∨ q = BlockQuality.Fork)
    (hX1 : X ≠ BlockQuality.Good) (hX2 : X ≠ BlockQuality.Fork) : False := by
  injection h with h1
  have hx : X = q := congrArg Prod.fst h1
  rcases hq with rfl | rfl
  · exact hX1 hx
  · exact hX2 hx

/-- `check_block` facts used by the invariant: a verdict of `Good` or `Fork`
means the previous-hash gate passed, the index is at most one above the tip,
and with an empty tip the block is genesis. -/
lemma check_block_prev_facts (env : Env) (c : Chain) (b : Block) (lb lfb : Option Block)
    (fuel : Nat) (q : BlockQuality) (s : SignersCache)
    (h : c.check_block env b lb lfb fuel = some (q, s))
    (hq : q = BlockQuality.Good ∨ q = BlockQuality.Fork) :
    (∀ prev, c.get_block (b.index - 1) = some prev → b.prev_block_hash = prev.hash) ∧
    (∀ last, lb = some last → b.index ≤ last.index + 1) ∧
    (lb = none → b.index = 1) := by
  unfold Chain.check_block at h
  split at h
  · exact (not_good_result _ _ _ _ h hq (by decide) (by decide)).elim
  split at h
  · exact (not_good_result _ _ _ _ h hq (by decide) (by decide)).elim
  split at h
  · exact (not_good_result _ _ _ _ h hq (by decide) (by decide)).elim
  rename_i g3
  split at h
  · exact (not_good_result _ _ _ _ h hq (by decide) (by decide)).elim
  split at h
  · exact (not_good_result _ _ _ _ h hq (by decide) (by decide)).elim
  split at h
  · exact (not_good_result _ _ _ _ h hq (by decide) (by decide)).elim
  split at h
  · exact (not_good_result _ _ _ _ h hq (by decide) (by decide)).elim
  split at h
  · exact (not_good_result _ _ _ _ h hq (by decide) (by decide)).elim
  split at h
  · exact (not_good_result _ _ _ _ h hq (by decide) (by decide)).elim
  rename_i g9
  have fact1 : ∀ prev, c.get_block (b.index - 1) = some prev →
      b.prev_block_hash = prev.hash := by
    intro prev hp
    rw [hp] at g9
    simpa using g9
  split at h
  · exact (not_good_result _ _ _ _ h hq (by decide) (by decide)).elim
  cases lb with
  | none =>
    refine ⟨fact1, fun last hl => Option.noConfusion hl, fun _ => ?_⟩
    simp only [check_block_finish] at h
    split at h
    · exact (not_good_result _ _ _ _ h hq (by decide) (by decide)).elim
    rename_i gg
    have hgen : b.is_genesis = true := by simpa using gg
    simpa [Block.is_genesis] using hgen
  | some last =>
    have hng : ¬ b.index > last.index + 1 := by simpa using g3
    refine ⟨fact1, ?_, fun hn => Option.noConfusion hn⟩
    intro last' hl'
    injection hl' with he
    subst he
    omega

lemma add_block_db (c : Chain) (b : Block) (c' : Chain) (h : c.add_block b = some c') :
    c'.db_blocks = c.db_blocks ++ [b] := by
  unfold Chain.add_block at h
  cases ht : b.transaction with
  | none =>
    simp only [ht] at h
    injection h with h1
    subst h1
    rfl
  | some t =>
    simp only [ht] at h
    by_cases h1 : (t.tclass == CLASS_DOMAIN) = true
    · rw [if_pos h1] at h
      injection h with h2
      subst h2
      rfl
    · rw [if_neg h1] at h
      by_cases h2 : (t.tclass == CLASS_ZONE) = true
      · rw [if_pos h2] at h
        injection h with h3
        subst h3
        rfl
      · rw [if_neg h2] at h
        exact Option.noConfusion h

lemma replace_block_db (c : Chain) (b : Block) (c' : Chain)
    (h : c.replace_block b = some c') :
    c'.db_blocks = (c.db_blocks.filter (fun x => x.index < b.index)) ++ [b] := by
  unfold Chain.replace_block at h
  have hd := add_block_db _ b c' h
  rw [hd]
  simp

lemma wellChained_filter_lt (l : List Block) (k : Nat) (hw : WellChained l) :
    WellChained (l.filter (fun x => x.index < k)) := by
  intro x hx hxi
  obtain ⟨hxl, hxk⟩ := List.mem_filter.mp hx
  have hfact := hw x hxl hxi
  cases hp : dbGetBlock l (x.index - 1) with
  | none => rw [hp] at hfact; simp at hfact
  | some p =>
    rw [hp] at hfact
    have hpk : (fun x => decide (x.index < k)) p = true := by
      have hpi := dbGetBlock_index l (x.index - 1) p hp
      have hxk' : x.index < k := by simpa using hxk
      simp only [decide_eq_true_eq]
      omega
    rw [dbGetBlock_filter l _ _ p hp hpk]
    exact hfact

lemma wellChained_append (l : List Block) (b : Block) (hw : WellChained l)
    (hb : 1 < b.index →
      (dbGetBlock l (b.index - 1)).map Block.hash = some b.prev_block_hash) :
    WellChained (l ++ [b]) := by
  intro x hx hxi
  rcases List.mem_append.mp hx with hxl | hxb
  · have hfact := hw x hxl hxi
    cases hp : dbGetBlock l (x.index - 1) with
    | none => rw [hp] at hfact; simp at hfact
    | some p =>
      rw [hp] at hfact
      rw [dbGetBlock_append_some l [b] _ p hp]
      exact hfact
  · have hxb' : x = b := List.mem_singleton.mp hxb
    subst hxb'
    have hfact := hb hxi
    cases hp : dbGetBlock l (x.index - 1) with
    | none => rw [hp] at hfact; simp at hfact
    | some p =>
      rw [hp] at hfact
      rw [dbGetBlock_append_some l _ _ p hp]
      exact hfact

/-- The `check_chain` walk only ever leaves the blocks table unchanged or
truncates it at some index. -/
lemma checkChainLoop_db_shape (env : Env) (fuel : Nat) :
    ∀ (ids : List Nat) (c : Chain) (lb lfb : Option Block) (c' : Chain),
      checkChainLoop env fuel c ids lb lfb = some c' →
      (c'.db_blocks = c.db_blocks) ∨
      (∃ k, c'.db_blocks = c.db_blocks.filter (fun x => x.index < k)) := by
  intro ids
  induction ids with
  | nil =>
    intro c lb lfb c' h
    simp only [checkChainLoop] at h
    injection h with h1
    subst h1
    exact Or.inl rfl
  | cons id rest ih =>
    intro c lb lfb c' h
    simp only [checkChainLoop] at h
    cases hb : c.get_block id with
    | none => simp only [hb] at h; exact Option.noConfusion h
    | some block =>
      simp only [hb] at h
      by_cases hgen : block.index = 1
      · rw [if_pos hgen] at h
        by_cases hor : block.hash ≠ c.origin
        · rw [if_pos hor] at h; exact Option.noConfusion h
        · rw [if_neg hor] at h
          exact ih c _ _ c' h
      · rw [if_neg hgen] at h
        cases hcb : c.check_block env block lb lfb fuel with
        | none => simp only [hcb] at h; exact Option.noConfusion h
        | some qs =>
          obtain ⟨q, s⟩ := qs
          simp only [hcb] at h
          by_cases hq : q ≠ BlockQuality.Good
          · rw [if_pos hq] at h
            injection h with h1
            right
            refine ⟨block.index, ?_⟩
            rw [← h1]
            simp
          · rw [if_neg hq] at h
            cases ht : block.transaction.isSome with
            | true =>
              simp only [ht, eq_self_iff_true, if_true] at h
              rcases ih _ _ _ c' h with h1 | ⟨k, h1⟩
              · left; simpa using h1
              · right; exact ⟨k, by simpa using h1⟩
            | false =>
              simp only [ht, Bool.false_eq_true, if_false] at h
              rcases ih _ _ _ c' h with h1 | ⟨k, h1⟩
              · left; simpa using h1
              · right; exact ⟨k, by simpa using h1⟩

/-- Claim C8: starting from a contiguous, well-chained committed state,
every state-changing operation of the engine — `add_block` on a block judged
`Good`, `replace_block` on a block judged `Fork` (or `Good`), and
`check_chain` — leaves a blocks table in which every block above genesis
carries the hash of the block at the previous index. -/
theorem c8_prev_hash_invariant (env : Env) (c : Chain) (hgt : Nat) (b : Block) (fuel : Nat)
    (hmap : c.db_blocks.map Block.index = List.range' 1 hgt)
    (hh : c.get_height = hgt)
    (hw : WellChained c.db_blocks) :
    (∀ s c', c.check_new_block env b fuel = some (BlockQuality.Good, s) →
      c.add_block b = some c' → WellChained c'.db_blocks) ∧
    (∀ q s c', c.check_new_block env b fuel = some (q, s) →
      (q = BlockQuality.Good ∨ q = BlockQuality.Fork) →
      c.replace_block b = some c' → WellChained c'.db_blocks) ∧
    (∀ count c', c.check_chain env count fuel = some c' → WellChained c'.db_blocks) := by
  refine ⟨?_, ?_, ?_⟩
  · intro s c' hchk hadd
    obtain ⟨f1, f2, f3⟩ := check_block_prev_facts env c b c.last_block c.last_full_block fuel
      BlockQuality.Good s hchk (Or.inl rfl)
    rw [add_block_db c b c' hadd]
    apply wellChained_append _ _ hw
    intro hbi
    cases hlb : c.last_block with
    | none =>
      have := f3 hlb
      omega
    | some last =>
      have hle := f2 last hlb
      have hlast : last.index = hgt := by simpa [Chain.get_height, hlb] using hh
      obtain ⟨prev, hp, hpi⟩ :=
        dbGetBlock_range' c.db_blocks 1 hgt (b.index - 1) hmap (by omega) (by omega)
      rw [hp]
      have := f1 prev hp
      simp [this]
  · intro q s c' hchk hq hrep
    obtain ⟨f1, f2, f3⟩ := check_block_prev_facts env c b c.last_block c.last_full_block fuel
      q s hchk hq
    rw [replace_block_db c b c' hrep]
    apply wellChained_append _ _ (wellChained_filter_lt _ _ hw)
    intro hbi
    cases hlb : c.last_block with
    | none =>
      have := f3 hlb
      omega
    | some last =>
      have hle := f2 last hlb
      have hlast : last.index = hgt := by simpa [Chain.get_height, hlb] using hh
      obtain ⟨prev, hp, hpi⟩ :=
        dbGetBlock_range' c.db_blocks 1 hgt (b.index - 1) hmap (by omega) (by omega)
      have hpk : (fun x => decide (x.index < b.index)) prev = true := by
        simp only [decide_eq_true_eq]
        omega
      rw [dbGetBlock_filter c.db_blocks _ _ prev hp hpk]
      have := f1 prev hp
      simp [this]
  · intro count c' hcc
    simp only [Chain.check_chain] at hcc
    split at hcc
    · exact Option.noConfusion hcc
    · rename_i c₀ hloop
      injection hcc with h1
      have hdb : c'.db_blocks = c₀.db_blocks := by
        rw [← h1]
      rcases checkChainLoop_db_shape env fuel _ c _ _ c₀ hloop with hs | ⟨k, hs⟩
      · rw [hdb, hs]
        exact hw
      · rw [hdb, hs]
        exact wellChained_filter_lt _ _ hw

/-- Witness for C8: the invariant after adding a `Good` genesis to the empty
chain, after replacing the tip of `c2c` with the forked block `b2f`, and
after `check_chain` over `c2c`. -/
theorem c8_witness :
    (Chain.check_new_block envT cE g1 5 = some (BlockQuality.Good, emptyCache) ∧
      ∃ c', Chain.add_block cE g1 = some c' ∧ WellChained c'.db_blocks) ∧
    (Chain.check_new_block envT c2c b2f 5 = some (BlockQuality.Fork, emptyCache) ∧
      ∃ c'', Chain.replace_block c2c b2f = some c'' ∧ WellChained c''.db_blocks) ∧
    (∃ c₃, Chain.check_chain envT c2c 8 5 = some c₃ ∧ WellChained c₃.db_blocks) := by
  refine ⟨⟨by decide, ?_⟩, ⟨by decide, ?_⟩, ?_⟩
  · obtain ⟨c', hc'⟩ := Option.isSome_iff_exists.mp (by decide : (Chain.add_block cE g1).isSome = true)
    exact ⟨c', hc',
      (c8_prev_hash_invariant envT cE 0 g1 5 (by decide) (by decide) (by decide)).1
        emptyCache c' (by decide) hc'⟩
  · obtain ⟨c'', hc''⟩ := Option.isSome_iff_exists.mp
      (by decide : (Chain.replace_block c2c b2f).isSome = true)
    exact ⟨c'', hc'',
      (c8_prev_hash_invariant envT c2c 2 b2f 5 (by decide) (by decide) (by decide)).2.1
        BlockQuality.Fork emptyCache c'' (by decide) (Or.inr rfl) hc''⟩
  · obtain ⟨c₃, hc₃⟩ := Option.isSome_iff_exists.mp
      (by decide : (Chain.check_chain envT c2c 8 5).isSome = true)
    exact ⟨c₃, hc₃,
      (c8_prev_hash_invariant envT c2c 2 b2f 5 (by decide) (by decide) (by decide)).2.2
        8 c₃ hc₃⟩
